import Mathlib

/-!
Verification development for the resumable SCOTUS seed pipeline
(CourtListener crawl, chunking, embedding, dedup insert, checkpointing).

JavaScript strings are modelled as lists of UTF-16 code units
(`List Nat`); the relational operators `<` and `>` on JS strings are the
lexicographic order on code units, modelled by `jsLt`.  Library effects
outside the repository (the HTTP fetch, the OpenAI embedding call, the
LangChain splitter, Node crypto SHA-1, the Astra collections and the
current time) are supplied through an explicit environment record; the
Astra collections are modelled as in-memory lists with findOne /
updateOne(upsert) / insertMany semantics on the first matching document.
-/

namespace CourtSeed

/-- A JavaScript string: its list of UTF-16 code units. -/
abbrev JStr := List Nat

/-- JS string comparison `a < b`: lexicographic order on code units, a
strict prefix being smaller. -/
def jsLt : JStr → JStr → Bool
  | [], [] => false
  | [], _ :: _ => true
  | _ :: _, [] => false
  | a :: as, b :: bs => if a < b then true else if b < a then false else jsLt as bs

/-- Code units of a Lean string literal (ASCII in all our uses). -/
def strCodes (s : String) : List Nat := s.data.map Char.toNat

/-- Decimal rendering of a nonnegative JS number via `String(n)` /
template-literal interpolation, most significant digit first.  The fuel
argument makes the recursion structural; `natDigits` supplies enough
fuel for any input. -/
def natDigitsAux : Nat → Nat → List Nat → List Nat
  | 0, _, acc => acc
  | fuel + 1, n, acc =>
    if n < 10 then (48 + n) :: acc
    else natDigitsAux fuel (n / 10) ((48 + n % 10) :: acc)

/-- Decimal rendering of a JS number (code units). -/
def natDigits (n : Nat) : List Nat := natDigitsAux (n + 1) n []

/-- JS truthiness of an optional string: `undefined`/`null` and the
empty string are falsy. -/
def strTruthy : Option JStr → Bool
  | none => false
  | some s => !s.isEmpty

/-- JS `a || b` for an optional string `a` and a string default `b`. -/
def firstTruthy (a : Option JStr) (b : JStr) : JStr :=
  match a with
  | some s => if s.isEmpty then b else s
  | none => b

/-- JS `a || b` on two optional strings: `a` when truthy, otherwise
`b` as-is (used for `op.type || op.opinion_type`). -/
def jsOrOpt (a b : Option JStr) : Option JStr :=
  match a with
  | some s => if s.isEmpty then b else some s
  | none => b

/-- JS `x || undefined` for an optional string `x`. -/
def truthyStr (a : Option JStr) : Option JStr :=
  match a with
  | some s => if s.isEmpty then none else some s
  | none => none

/-- JS `a || b || undefined` on two optional strings: the first truthy
operand, or undefined when both are falsy — unlike plain `a || b`,
which returns `b` itself (even an empty string) when `a` is falsy. -/
def jsOrUndef (a b : Option JStr) : Option JStr :=
  match a with
  | some s => if s.isEmpty then truthyStr b else some s
  | none => truthyStr b

/-- Whitespace code units recognised by JS `trim` / `\s` (the ASCII
whitespace characters plus NBSP, LS, PS, BOM — the ones that can occur
in our ASCII/Latin inputs). -/
def isWs (c : Nat) : Bool :=
  c = 32 || c = 9 || c = 10 || c = 11 || c = 12 || c = 13 || c = 160 ||
  c = 8232 || c = 8233 || c = 65279

/-- JS `String.prototype.trim`. -/
def trimCodes (s : JStr) : JStr :=
  ((s.dropWhile isWs).reverse.dropWhile isWs).reverse

/-- ASCII lower-casing of one code unit (JS `toLowerCase` restricted to
the ASCII range used by the opinion type labels). -/
def lowerCode (c : Nat) : Nat := if 65 ≤ c ∧ c ≤ 90 then c + 32 else c

/-- JS `toLowerCase` on a string (ASCII range). -/
def jsToLower (s : JStr) : JStr := s.map lowerCode

/-- Exact prefix test on code-unit lists. -/
def beginsWith : JStr → JStr → Bool
  | [], _ => true
  | _ :: _, [] => false
  | p :: ps, c :: cs => p = c && beginsWith ps cs

/-- JS `String.prototype.includes pat`: some suffix of `s` starts with
`pat`. -/
def hasSub (pat : JStr) : JStr → Bool
  | [] => pat.isEmpty
  | c :: cs => beginsWith pat (c :: cs) || hasSub pat cs

/-! ### Retrying HTTP fetcher (fetchJsonWithRetry, seed.ts lines 112-158)

The outcome of each underlying `fetch` attempt is scripted by a list:
one entry per attempt, in order.  A timeout fires the AbortController,
which makes `fetch` reject, landing in the same catch branch as any
other network-level failure, so timeouts are network errors here. -/

/-- One underlying fetch attempt: an HTTP response with a status and a
body (the body doubles as the parsed JSON payload when the status is
ok), or a network-level error / timeout with a message. -/
inductive FetchOutcome where
  | response (status : Nat) (body : JStr)
  | netErr (msg : JStr)
deriving DecidableEq

/-- The failure the final attempt of `fetchJsonWithRetry` was caught
with: the Error thrown on seed.ts line 144 for a non-ok response
(carrying the status and the response body truncated to 300 units), or
a network-level failure / timeout message. -/
inductive FetchError where
  | http (status : Nat) (bodyTrunc : JStr)
  | net (msg : JStr)
deriving DecidableEq

/-- Result of `fetchJsonWithRetry`: the parsed payload, or the one
terminal error of the source — the seed.ts line 156 throw, a "network
error after retries" wrap whose message embeds the cause the catch
received on the ninth attempt. -/
inductive FetchResult where
  | ok (payload : JStr)
  | terminal (cause : FetchError)
deriving DecidableEq

/-- The retriable HTTP status codes (seed.ts line 131). -/
def retriableStatuses : List Nat := [403, 408, 425, 429, 500, 502, 503, 504]

/-- JS `Response.ok`: status in the range 200..299. -/
def statusOk (s : Nat) : Bool := 200 ≤ s && s ≤ 299

/-- Backoff base delay at a given attempt number:
`Math.min(30000, 300 * Math.pow(2, attempt))` (seed.ts line 133). -/
def backoffBase (attempt : Nat) : Nat := min 30000 (300 * 2 ^ attempt)

/-- Wait duration before the retry of a given attempt: the base delay
plus the jitter (`Math.floor(Math.random() * 500)`, a value below
500). -/
def backoffWait (attempt jitter : Nat) : Nat := backoffBase attempt + jitter

/-- Model of `fetchJsonWithRetry url purpose attempt` over a scripted
list of attempt outcomes (first list entry = outcome of this attempt).
`none` is a model artifact meaning the script supplied fewer outcomes
than the call consumed.  Sleeps and warning logs are dropped; the
control flow follows the source: the ok check, the retriable-status
branch guarded by `attempt <= 8`, then the throw of seed.ts line 144 —
which sits inside the try block, so the same invocation's catch (line
145) receives it and, under the same `attempt <= 8` guard, retries any
non-retriable status exactly like a network failure; only when the
guard fails does the catch rethrow terminally, wrapping the cause it
caught.  (The recursive calls are returned without an inner await, so
a deeper attempt's failure is adopted by the caller's promise and does
not re-enter this invocation's catch.) -/
def fetchJsonWithRetry : List FetchOutcome → Nat → Option FetchResult
  | [], _ => none
  | .response status body :: rest, attempt =>
    if statusOk status then some (.ok body)
    else if retriableStatuses.contains status && attempt ≤ 8 then
      fetchJsonWithRetry rest (attempt + 1)
    else if attempt ≤ 8 then
      fetchJsonWithRetry rest (attempt + 1)
    else some (.terminal (.http status (body.take 300)))
  | .netErr msg :: rest, attempt =>
    if attempt ≤ 8 then fetchJsonWithRetry rest (attempt + 1)
    else some (.terminal (.net msg))

/-- An attempt outcome the fetcher cannot return from: any non-2xx
response or any network error / timeout.  (Every one of them is
retried while the attempt counter allows it, the non-retriable
statuses through the catch.) -/
def failOutcome : FetchOutcome → Bool
  | .response status _ => !statusOk status
  | .netErr _ => true

/-- The call ended in the terminal thrown error. -/
def isFailResult : Option FetchResult → Bool
  | some (.terminal _) => true
  | _ => false

/-! ### Data shapes stored in Astra (seed.ts lines 160-233) -/

/-- Embedding vectors: their numeric contents are never inspected by
the pipeline, so the float payload is modelled opaquely. -/
abbrev Vec := List Int

/-- The six section tags of an opinion chunk. -/
inductive Section where
  | majority
  | concurrence
  | dissent
  | per_curiam
  | syllabus
  | other
deriving DecidableEq

/-- A document of the `cases` collection (type CaseDoc in seed.ts).
Fields that the source may leave `undefined` (or that an
upsert-insert of a partial `$set` never supplies) are `Option`s. -/
structure CaseDoc where
  case_id : JStr
  case_name : Option JStr
  docket : Option JStr
  decision_date : Option JStr
  provider : Option JStr
  court : Option JStr
  citations : Option (List JStr)
  source_urls : Option (List JStr)
  indexed : Option Bool
  opinions_count : Option Nat
deriving DecidableEq

/-- A document of the `opinions` collection (type OpinionChunk in
seed.ts).  The source field `section` is named `sec` here (reserved
word), and `$vector` is named `vector`; it is `Option` because
`vectors[i]` is `undefined` in JS whenever the embedding call
returned fewer vectors than there are chunks. -/
structure Chunk where
  case_id : JStr
  sec : Section
  author : Option JStr
  opinion_id : JStr
  chunk_index : Nat
  text : JStr
  vector : Option Vec
  decision_date : Option JStr
  content_hash : JStr
  source_url : JStr
deriving DecidableEq

/-- A document of the `seed_control` collection (type SeedCheckpoint
in seed.ts). -/
structure SeedCheckpoint where
  job_id : JStr
  start_year : Nat
  end_year : Nat
  next_url : JStr
  updated_at : JStr
deriving DecidableEq

/-- The three Astra collections. -/
structure Store where
  cases : List CaseDoc
  opinions : List Chunk
  control : List SeedCheckpoint
deriving DecidableEq

/-- A citation object on an upstream cluster record. -/
structure Cite where
  cite : Option JStr
deriving DecidableEq

/-- An upstream cluster record as consumed by the pipeline (the fields
read from a clusters-page item). -/
structure Cluster where
  id : Nat
  case_name : Option JStr
  case_name_full : Option JStr
  date_filed : Option JStr
  docket : Option JStr
  docket_number : Option JStr
  citations : Option (List Cite)
deriving DecidableEq

/-- An upstream opinion record as consumed by the pipeline (the fields
read from an opinions-page item). -/
structure Op where
  id : Nat
  type : Option JStr
  opinion_type : Option JStr
  author_str : Option JStr
  author : Option JStr
  plain_text : Option JStr
  html_with_citations : Option JStr
  html : Option JStr
deriving DecidableEq

/-- One clusters page as parsed JSON: the `results` array and the raw
`next` field (absent or empty when the crawl is exhausted). -/
structure Page where
  results : List Cluster
  next : Option JStr
deriving DecidableEq

/-- Effects supplied from outside the repository: the opinions fetch
for a cluster (the paginated `fetchOpinionsForCluster`, which can throw
a FetchError), the LangChain splitter, the raw OpenAI embeddings call
(which can throw), Node crypto SHA-1 as hex, the clusters-page fetch,
and the current timestamp. -/
structure Env where
  fetchOpinions : Nat → Except JStr (List Op)
  split : JStr → List JStr
  embedRaw : List JStr → Except JStr (List Vec)
  sha1 : JStr → JStr
  fetchPage : JStr → Page
  now : JStr

/-! ### Section normalization and text extraction (seed.ts lines 317-346) -/

/-- Model of `normalizeSection` (seed.ts lines 338-346): lower-case the
label (`(type || '').toLowerCase()`) and test the five substrings in
source order. -/
def normalizeSection (ty : Option JStr) : Section :=
  let t := jsToLower (firstTruthy ty [])
  if hasSub (strCodes "majority") t then .majority
  else if hasSub (strCodes "concurr") t then .concurrence
  else if hasSub (strCodes "dissent") t then .dissent
  else if hasSub (strCodes "per curiam") t || hasSub (strCodes "per_curiam") t then .per_curiam
  else if hasSub (strCodes "syllabus") t then .syllabus
  else .other

/-- Scan for the closing code unit 62 of an HTML tag; returns the
remainder after it.  Used after at least one non-62 unit has been
consumed, so the regex quantifier plus in the source pattern is
honoured by the caller. -/
def tagClose : JStr → Option JStr
  | [] => none
  | c :: cs => if c = 62 then some cs else tagClose cs

/-- After an opening 60 (the less-than sign), try to match the rest of
the source regex (one-or-more non-62 units, then 62); returns the
remainder after the tag, or none when the regex does not match here. -/
def findTagEnd : JStr → Option JStr
  | [] => none
  | c :: cs => if c = 62 then none else tagClose cs

/-- Replace every HTML tag (the source regex matching 60, one or more
non-62 units, then 62) by a single space; fuel makes the recursion
structural and `removeTags` supplies enough. -/
def removeTagsAux : Nat → JStr → JStr
  | _, [] => []
  | 0, l => l
  | fuel + 1, c :: cs =>
    if c = 60 then
      match findTagEnd cs with
      | some rest => 32 :: removeTagsAux fuel rest
      | none => c :: removeTagsAux fuel cs
    else c :: removeTagsAux fuel cs

/-- Tag stripping (`.replace(/<[^>]+>/g, ' ')`). -/
def removeTags (s : JStr) : JStr := removeTagsAux s.length s

/-- Case-insensitive prefix test: does lowering `s` start with the
(lower-case) pattern? -/
def beginsWithCI : JStr → JStr → Bool
  | [], _ => true
  | _ :: _, [] => false
  | p :: ps, c :: cs => p = lowerCode c && beginsWithCI ps cs

/-- Find the first case-insensitive occurrence of `pat` and return the
remainder after it. -/
def findAfterCI (pat : JStr) : JStr → Option JStr
  | [] => if pat.isEmpty then some [] else none
  | c :: cs =>
    if beginsWithCI pat (c :: cs) then some ((c :: cs).drop pat.length)
    else findAfterCI pat cs

/-- Replace every lazy case-insensitive block from `openPat` to the
nearest following `closePat` by a single space (the source regexes for
script and style elements); an unterminated block is left in place, as
the regex then fails to match at that position. -/
def removeBlocksAux (openPat closePat : JStr) : Nat → JStr → JStr
  | _, [] => []
  | 0, l => l
  | fuel + 1, c :: cs =>
    if beginsWithCI openPat (c :: cs) then
      match findAfterCI closePat ((c :: cs).drop openPat.length) with
      | some rest => 32 :: removeBlocksAux openPat closePat fuel rest
      | none => c :: removeBlocksAux openPat closePat fuel cs
    else c :: removeBlocksAux openPat closePat fuel cs

/-- Block stripping for one element kind. -/
def removeBlocks (openPat closePat s : JStr) : JStr :=
  removeBlocksAux openPat closePat s.length s

/-- Collapse every run of whitespace to a single space
(`.replace(/\s+/g, ' ')`); fuel makes the recursion structural. -/
def collapseWsAux : Nat → JStr → JStr
  | _, [] => []
  | 0, l => l
  | fuel + 1, c :: cs =>
    if isWs c then 32 :: collapseWsAux fuel (cs.dropWhile isWs)
    else c :: collapseWsAux fuel cs

/-- Whitespace collapsing. -/
def collapseWs (s : JStr) : JStr := collapseWsAux s.length s

/-- Model of `extractOpinionText` (seed.ts lines 320-333): prefer the
trimmed `plain_text`; otherwise strip the markup fallback (script
blocks, style blocks, tags, whitespace runs) and trim. -/
def extractOpinionText (op : Op) : JStr :=
  let pt := trimCodes (firstTruthy op.plain_text [])
  if pt.isEmpty then
    let html := trimCodes (firstTruthy op.html_with_citations (firstTruthy op.html []))
    if html.isEmpty then []
    else
      trimCodes (collapseWs (removeTags
        (removeBlocks (strCodes "<style") (strCodes "</style>")
          (removeBlocks (strCodes "<script") (strCodes "</script>") html))))
  else pt

/-- Model of `embedBatch` (seed.ts lines 351-362): trim the inputs,
drop the blanks, short-circuit an empty batch, otherwise make the one
upstream call. -/
def embedBatch (env : Env) (texts : List JStr) : Except JStr (List Vec) :=
  let inputs := (texts.map trimCodes).filter (fun t => !t.isEmpty)
  if inputs.isEmpty then .ok []
  else env.embedRaw inputs

/-! ### Astra helpers: upserts and the dedup insert layer
(seed.ts lines 364-405) -/

/-- Update the first element satisfying `p` (Astra updateOne touches one
document). -/
def updateFirst (p : α → Bool) (f : α → α) : List α → List α
  | [] => []
  | x :: xs => if p x then f x :: xs else x :: updateFirst p f xs

/-- updateOne with upsert: rewrite the first match with `f`, or append
`ins` (the document built from the filter plus the update) when nothing
matches. -/
def upsertWith (p : α → Bool) (f : α → α) (ins : α) (l : List α) : List α :=
  if l.any p then updateFirst p f l else l ++ [ins]

/-- Model of `upsertCase` (seed.ts lines 365-372): updateOne on `cases`
keyed by case_id, `$set` of the whole document, upsert. -/
def upsertCase (cases : List CaseDoc) (doc : CaseDoc) : List CaseDoc :=
  upsertWith (fun c => c.case_id == doc.case_id) (fun _ => doc) doc cases

/-- The exact-key dedup probe of `insertOpinionChunks`: same case_id,
opinion_id and content_hash. -/
def chunkKeyEq (a b : Chunk) : Bool :=
  a.case_id == b.case_id && a.opinion_id == b.opinion_id && a.content_hash == b.content_hash

/-- findOne by the exact dedup key: does any stored chunk share the
candidate key? -/
def probeExists (store : List Chunk) (d : Chunk) : Bool :=
  store.any (fun e => chunkKeyEq e d)

/-- The batch loop of `insertOpinionChunks` (seed.ts lines 385-401):
take a slice of at most 40 candidates, probe each against storage,
insertMany the fresh ones, accumulate the inserted count, continue on
the remainder.  Fuel makes the recursion structural;
`insertOpinionChunks` supplies enough. -/
def insertBatchesAux : Nat → List Chunk → List Chunk → Nat → List Chunk × Nat
  | _, store, [], n => (store, n)
  | 0, store, _ :: _, n => (store, n)
  | fuel + 1, store, d :: ds, n =>
    let slice := (d :: ds).take 40
    let toInsert := slice.filter (fun x => !probeExists store x)
    insertBatchesAux fuel (store ++ toInsert) ((d :: ds).drop 40) (n + toInsert.length)

/-- Model of `insertOpinionChunks` (seed.ts lines 378-405): the early
return on an empty batch yields `undefined` (`none`); otherwise the
batch loop runs and the inserted count is returned. -/
def insertOpinionChunks (store docs : List Chunk) : List Chunk × Option Nat :=
  if docs.isEmpty then (store, none)
  else
    let r := insertBatchesAux docs.length store docs 0
    (r.1, some r.2)

/-- The successive sub-batches of at most `BATCH = 40` candidates that
the loop of `insertOpinionChunks` processes. -/
def batchSlicesAux : Nat → List Chunk → List (List Chunk)
  | _, [] => []
  | 0, _ => []
  | fuel + 1, d :: ds => (d :: ds).take 40 :: batchSlicesAux fuel ((d :: ds).drop 40)

/-- The sub-batches of one `insertOpinionChunks` call. -/
def batchSlices (docs : List Chunk) : List (List Chunk) :=
  batchSlicesAux docs.length docs

/-! ### Per-cluster ingestion (processCluster, seed.ts lines 408-505) -/

/-- The stable case id `cl:<cluster_id>`. -/
def caseIdOf (clusterId : Nat) : JStr := strCodes "cl:" ++ natDigits clusterId

/-- The stable opinion id `clop:<opinion_id>`. -/
def opinionIdOf (opId : Nat) : JStr := strCodes "clop:" ++ natDigits opId

/-- The record-level date guard lower bound `START_YEAR-01-01`
(seed.ts line 428). -/
def recordMinStr (startYear : Nat) : JStr := natDigits startYear ++ strCodes "-01-01"

/-- The record-level date guard upper bound `END_YEAR-12-31`
(seed.ts line 429). -/
def recordMaxStr (endYear : Nat) : JStr := natDigits endYear ++ strCodes "-12-31"

/-- The page-level secondary filter lower bound `START_YEAR-01-01`
(seed.ts line 537). -/
def pageMinStr (startYear : Nat) : JStr := natDigits startYear ++ strCodes "-01-01"

/-- The page-level secondary filter upper bound: the template literal
on seed.ts line 538 renders the month five without zero padding, so the
bound is the literal `END_YEAR-5-01`. -/
def pageMaxStr (endYear : Nat) : JStr := natDigits endYear ++ strCodes "-5-01"

/-- Configuration derived from the environment: the date window, the
CourtListener base URL and the checkpoint job id. -/
structure Config where
  startYear : Nat
  endYear : Nat
  base : JStr
  jobId : JStr
deriving DecidableEq

/-- The record-level defensive date guard (seed.ts lines 428-433):
skip when a truthy decision date falls lexicographically outside
`START_YEAR-01-01 .. END_YEAR-12-31`. -/
def recordDateSkips (cfg : Config) (dd : Option JStr) : Bool :=
  match dd with
  | none => false
  | some s => jsLt s (recordMinStr cfg.startYear) || jsLt (recordMaxStr cfg.endYear) s

/-- The author string `(op.author_str || op.author || '').trim() ||
undefined`. -/
def authorOf (op : Op) : Option JStr :=
  let a := trimCodes (firstTruthy op.author_str (firstTruthy op.author []))
  if a.isEmpty then none else some a

/-- One OpinionChunk candidate as built in `processCluster` (seed.ts
lines 479-490); `sha1fn` is the Node crypto SHA-1 hex digest and the
content hash is applied to the colon-joined template
`opinionId:i:chunk`. -/
def buildChunkDoc (base : JStr) (sha1fn : JStr → JStr) (case_id : JStr) (sec : Section)
    (author : Option JStr) (decision_date : Option JStr) (opinionId i : Nat) (c : JStr)
    (vec : Option Vec) : Chunk :=
  { case_id := case_id
  , sec := sec
  , author := author
  , opinion_id := opinionIdOf opinionId
  , chunk_index := i
  , text := c
  , vector := vec
  , decision_date := decision_date
  , content_hash := sha1fn (natDigits opinionId ++ [58] ++ natDigits i ++ [58] ++ c)
  , source_url := base ++ strCodes "/api/rest/v4/opinions/" ++ natDigits opinionId ++ [47] }

/-- The CaseDoc written at the start of processing a record (seed.ts
lines 435-449). -/
def clusterCaseDoc (cfg : Config) (cluster : Cluster) : CaseDoc :=
  { case_id := caseIdOf cluster.id
  , case_name := jsOrUndef cluster.case_name cluster.case_name_full
  , docket := jsOrUndef cluster.docket cluster.docket_number
  , decision_date := truthyStr cluster.date_filed
  , provider := some (strCodes "courtlistener")
  , court := some (strCodes "US_SCOTUS")
  , citations := cluster.citations.map
      (fun l => (l.map (fun c => trimCodes (firstTruthy c.cite []))).filter (fun s => !s.isEmpty))
  , source_urls := some [cfg.base ++ strCodes "/api/rest/v4/clusters/" ++ natDigits cluster.id ++ [47]]
  , indexed := some false
  , opinions_count := none }

/-- The updateOne that marks a case fully indexed: `$set` of
`indexed=true` and `opinions_count=n`, upsert (seed.ts lines 458 and
500-504); an upsert-insert materialises only the filter plus the set
fields. -/
def markIndexed (cases : List CaseDoc) (cid : JStr) (n : Nat) : List CaseDoc :=
  upsertWith (fun c => c.case_id == cid)
    (fun c => { c with indexed := some true, opinions_count := some n })
    { case_id := cid, case_name := none, docket := none, decision_date := none
    , provider := none, court := none, citations := none, source_urls := none
    , indexed := some true, opinions_count := some n }
    cases

/-- Which of the return paths of `processCluster` was taken: the
already-indexed early return, the date-guard early return, normal
completion, or a thrown error (from the opinions fetch or an embedding
call) that propagates to the per-item catch in the orchestrator. -/
inductive PCOut where
  | skippedIndexed
  | skippedDate
  | ok
  | err (msg : JStr)
deriving DecidableEq

/-- The per-opinion loop of `processCluster` (seed.ts lines 465-497):
normalize the section and author, extract the text (skip the opinion
when empty), split (skip when no chunks), embed the chunks in one
batch (an embedding error aborts the record), build the candidate
chunk documents, insert them through the dedup layer and accumulate
`totalInserted += inserted || 0`. -/
def opLoop (cfg : Config) (env : Env) (case_id : JStr) (dd : Option JStr) :
    List Chunk → Nat → List Op → List Chunk × Except JStr Nat
  | ops_store, total, [] => (ops_store, .ok total)
  | ops_store, total, op :: rest =>
    let sec := normalizeSection (jsOrOpt op.type op.opinion_type)
    let author := authorOf op
    let text := extractOpinionText op
    if text.isEmpty then opLoop cfg env case_id dd ops_store total rest
    else
      let chunks := env.split text
      if chunks.isEmpty then opLoop cfg env case_id dd ops_store total rest
      else
        match embedBatch env chunks with
        | .error e => (ops_store, .error e)
        | .ok vectors =>
          let docs := chunks.mapIdx (fun i c =>
            buildChunkDoc cfg.base env.sha1 case_id sec author dd op.id i c vectors[i]?)
          let r := insertOpinionChunks ops_store docs
          opLoop cfg env case_id dd r.1 (total + r.2.getD 0) rest

/-- The quick-skip test of `processCluster` (seed.ts lines 413-422):
findOne on `cases` by case_id (the projection on `indexed` does not
change what the test observes) and compare `existing?.indexed ===
true`. -/
def alreadyIndexed (store : Store) (case_id : JStr) : Bool :=
  match store.cases.find? (fun c => c.case_id == case_id) with
  | some c => c.indexed == some true
  | none => false

/-- Model of `processCluster` (seed.ts lines 408-505): derive the case
id; findOne on `cases` and return immediately when `indexed === true`;
apply the defensive date guard; upsert the CaseDoc with
`indexed=false`; fetch the opinions (an error propagates with the
store as already mutated); the empty-opinions branch marks
`indexed=true, opinions_count=0`; otherwise run the per-opinion loop
and mark `indexed=true` with the accumulated inserted count. -/
def processCluster (cfg : Config) (env : Env) (store : Store) (cluster : Cluster) :
    Store × PCOut :=
  let case_id := caseIdOf cluster.id
  if alreadyIndexed store case_id then
    (store, .skippedIndexed)
  else
    let dd := truthyStr cluster.date_filed
    if recordDateSkips cfg dd then (store, .skippedDate)
    else
      let caseDoc := clusterCaseDoc cfg cluster
      let store1 : Store := { store with cases := upsertCase store.cases caseDoc }
      match env.fetchOpinions cluster.id with
      | .error e => (store1, .err e)
      | .ok opinions =>
        if opinions.isEmpty then
          ({ store1 with cases := markIndexed store1.cases case_id 0 }, .ok)
        else
          match opLoop cfg env case_id dd store1.opinions 0 opinions with
          | (ops2, .error e) => ({ store1 with opinions := ops2 }, .err e)
          | (ops2, .ok total) =>
            let cases2 := markIndexed store1.cases case_id total
            ({ store1 with cases := cases2, opinions := ops2 }, .ok)

/-- The chunk documents that processing a record produces for one
opinion, as a pure function of the environment (the insert layer then
decides which of them are new).  Matches the candidate list built in
the loop body; an opinion whose text or chunk list is empty produces
nothing, and the error branch is never taken when the embedding
environment is total. -/
def opinionDocsOf (cfg : Config) (env : Env) (case_id : JStr) (dd : Option JStr)
    (op : Op) : List Chunk :=
  let text := extractOpinionText op
  if text.isEmpty then []
  else
    let chunks := env.split text
    if chunks.isEmpty then []
    else
      match embedBatch env chunks with
      | .error _ => []
      | .ok vectors =>
        chunks.mapIdx (fun i c =>
          buildChunkDoc cfg.base env.sha1 case_id (normalizeSection (jsOrOpt op.type op.opinion_type))
            (authorOf op) dd op.id i c vectors[i]?)

/-- All chunk documents a record's opinions produce, in processing
order. -/
def clusterOpinionDocs (cfg : Config) (env : Env) (cluster : Cluster) (ops : List Op) :
    List Chunk :=
  ops.flatMap (opinionDocsOf cfg env (caseIdOf cluster.id) (truthyStr cluster.date_filed))

/-! ### Checkpointing and the orchestrator (seed.ts lines 226-255 and
507-561) -/

/-- The checkpoint document `writeCheckpoint` builds (seed.ts lines
241-249): `next_url` is `nextUrl || ''`. -/
def checkpointDoc (cfg : Config) (env : Env) (nextUrl : Option JStr) : SeedCheckpoint :=
  { job_id := cfg.jobId
  , start_year := cfg.startYear
  , end_year := cfg.endYear
  , next_url := firstTruthy nextUrl []
  , updated_at := env.now }

/-- Model of `writeCheckpoint`: updateOne on the control collection
keyed by job_id, `$set` of the whole checkpoint, upsert. -/
def writeCheckpointStore (cfg : Config) (env : Env) (store : Store) (nextUrl : Option JStr) :
    Store :=
  let cp := checkpointDoc cfg env nextUrl
  { store with control := upsertWith (fun c => c.job_id == cfg.jobId) (fun _ => cp) cp store.control }

/-- Model of `readCheckpoint`: findOne on the control collection by
job_id. -/
def readCheckpoint (cfg : Config) (store : Store) : Option SeedCheckpoint :=
  store.control.find? (fun c => c.job_id == cfg.jobId)

/-- Percent-encoding hex digit (encodeURIComponent uses upper case). -/
def hexDigit (n : Nat) : Nat := if n < 10 then 48 + n else 55 + n

/-- Code units that encodeURIComponent leaves unescaped. -/
def uriUnreserved (c : Nat) : Bool :=
  (48 ≤ c && c ≤ 57) || (65 ≤ c && c ≤ 90) || (97 ≤ c && c ≤ 122) ||
  c = 45 || c = 46 || c = 95 || c = 126 || c = 33 || c = 42 || c = 39 || c = 40 || c = 41

/-- encodeURIComponent on the ASCII inputs this pipeline builds. -/
def encodeURIComponent (s : JStr) : JStr :=
  s.flatMap (fun c => if uriUnreserved c then [c] else [37, hexDigit (c / 16), hexDigit (c % 16)])

/-- The fields list requested from the clusters endpoint. -/
def clustersFields : JStr :=
  strCodes "id,case_name,case_name_full,date_filed,docket,citations,sub_opinions"

/-- Model of `buildClustersFirstPageUrl` (seed.ts lines 265-287). -/
def buildClustersFirstPageUrl (cfg : Config) : JStr :=
  cfg.base ++ strCodes "/api/rest/v4/clusters/?docket__court=scotus&date_filed__gte=" ++
  encodeURIComponent (natDigits cfg.startYear ++ strCodes "-03-19") ++
  strCodes "&date_filed__lte=" ++
  encodeURIComponent (natDigits cfg.endYear ++ strCodes "-12-01") ++
  strCodes "&page_size=100&order_by=date_filed&fields=" ++
  encodeURIComponent clustersFields

/-- The resume decision of `loadAllCases` (seed.ts lines 511-522): with
resume on, a checkpoint whose `next_url` is truthy (present and
non-empty) replaces the first-page URL; anything else keeps it. -/
def resumeStartUrl (resume : Bool) (cp : Option SeedCheckpoint) (firstUrl : JStr) : JStr :=
  if resume then
    match cp with
    | some c => if c.next_url.isEmpty then firstUrl else c.next_url
    | none => firstUrl
  else firstUrl

/-- The URL the page loop starts from, combining the first-page URL,
the resume flag and the stored checkpoint. -/
def loadAllCasesStartUrl (cfg : Config) (resume : Bool) (store : Store) : JStr :=
  resumeStartUrl resume (readCheckpoint cfg store) (buildClustersFirstPageUrl cfg)

/-- How one record fared inside the page loop: dropped by the secondary
date filter, processed by `processCluster` (including its internal
skips), or failed and logged by the per-item catch. -/
inductive RecOutcome where
  | filtered
  | processed
  | failed
deriving DecidableEq

/-- An observable effect of the page loop, in order: one attempt per
record, and the checkpoint write that ends the page. -/
inductive Event where
  | attempt (id : Nat) (o : RecOutcome)
  | checkpoint (next : JStr)
deriving DecidableEq

/-- The record id of an attempt event; `none` for a checkpoint write. -/
def evTag : Event → Option Nat
  | .attempt i _ => some i
  | .checkpoint _ => none

/-- The secondary date filter of the page loop (seed.ts lines 536-539):
`continue` when the sliced `date_filed` is truthy and falls
lexicographically outside `START_YEAR-01-01 .. END_YEAR-5-01`. -/
def pageFilterSkips (cfg : Config) (c : Cluster) : Bool :=
  let df := (firstTruthy c.date_filed []).take 10
  !df.isEmpty && (jsLt df (pageMinStr cfg.startYear) || jsLt (pageMaxStr cfg.endYear) df)

/-- One record of a clusters page (seed.ts lines 534-550): the
secondary date filter decides between `continue` and the
`processCluster` call under the per-item catch. -/
def recordStep (cfg : Config) (env : Env) (store : Store) (c : Cluster) : Store × Event :=
  if pageFilterSkips cfg c then
    (store, .attempt c.id .filtered)
  else
    match processCluster cfg env store c with
    | (s, .err _) => (s, .attempt c.id .failed)
    | (s, _) => (s, .attempt c.id .processed)

/-- One iteration of the page loop (seed.ts lines 527-557): every
record of the page is attempted in order, then the checkpoint is
written with the page's next cursor (`json.next || ''`). -/
def pageStep (cfg : Config) (env : Env) (store : Store) (page : Page) : Store × List Event :=
  let r := page.results.foldl
    (fun (acc : Store × List Event) c =>
      let s := recordStep cfg env acc.1 c
      (s.1, acc.2 ++ [s.2]))
    (store, [])
  let nextUrl := firstTruthy page.next []
  (writeCheckpointStore cfg env r.1 (some nextUrl), r.2 ++ [.checkpoint nextUrl])

/-- The page loop of `loadAllCases` from a given URL: fetch the page,
run the page iteration, continue from the written cursor while it is
non-empty.  Fuel bounds the number of pages (the crawl of a finite
upstream terminates within any sufficient fuel). -/
def crawl (cfg : Config) (env : Env) : Store → JStr → Nat → Store × List Event
  | store, _, 0 => (store, [])
  | store, url, fuel + 1 =>
    if url.isEmpty then (store, [])
    else
      let page := env.fetchPage url
      let r := pageStep cfg env store page
      let rest := crawl cfg env r.1 (firstTruthy page.next []) fuel
      (rest.1, r.2 ++ rest.2)

/-- One unfolding of `crawl` on a non-empty URL, packaged as a
definition: the page fetched from `url` is processed and checkpointed,
and the run continues exactly as a fresh crawl from the stored cursor
with the post-page store — the restart-from-checkpoint decomposition. -/
def pageStepThen (cfg : Config) (env : Env) (store : Store) (url : JStr) (fuel : Nat) :
    Store × List Event :=
  let page := env.fetchPage url
  let r := pageStep cfg env store page
  let rest := crawl cfg env r.1 (firstTruthy page.next []) fuel
  (rest.1, r.2 ++ rest.2)

/-! ### Decimal rendering and lexicographic comparison lemmas -/

/-- Two-digit zero-padded rendering (the month and day fields of an ISO
date). -/
def pad2 (n : Nat) : List Nat := [48 + n / 10, 48 + n % 10]

/-- A well-formed upstream ISO date string `yyyy-mm-dd` with the given
numeric components. -/
def isoDate (y m d : Nat) : JStr := natDigits y ++ 45 :: pad2 m ++ 45 :: pad2 d

theorem natDigitsAux_lt10 (fuel n : Nat) (acc : List Nat) (h : n < 10) :
    natDigitsAux (fuel + 1) n acc = (48 + n) :: acc := by
  simp [natDigitsAux, h]

theorem natDigitsAux_ge10 (fuel n : Nat) (acc : List Nat) (h : 10 ≤ n) :
    natDigitsAux (fuel + 1) n acc = natDigitsAux fuel (n / 10) ((48 + n % 10) :: acc) := by
  simp [natDigitsAux, Nat.not_lt.mpr h]

theorem natDigitsAux_ge10_pos (fuel n : Nat) (acc : List Nat) (hf : 0 < fuel) (h : 10 ≤ n) :
    natDigitsAux fuel n acc = natDigitsAux (fuel - 1) (n / 10) ((48 + n % 10) :: acc) := by
  obtain ⟨k, rfl⟩ : ∃ k, fuel = k + 1 := ⟨fuel - 1, by omega⟩
  rw [natDigitsAux_ge10 _ _ _ h]
  simp

theorem natDigitsAux_lt10_pos (fuel n : Nat) (acc : List Nat) (hf : 0 < fuel) (h : n < 10) :
    natDigitsAux fuel n acc = (48 + n) :: acc := by
  obtain ⟨k, rfl⟩ : ∃ k, fuel = k + 1 := ⟨fuel - 1, by omega⟩
  exact natDigitsAux_lt10 _ _ _ h

/-- A four-digit number renders as its four decimal digits. -/
theorem natDigits_four (y : Nat) (h1 : 1000 ≤ y) (h2 : y ≤ 9999) :
    natDigits y = [48 + y / 1000, 48 + y / 100 % 10, 48 + y / 10 % 10, 48 + y % 10] := by
  have d2 : y / 10 / 10 = y / 100 := by omega
  have d3 : y / 100 / 10 = y / 1000 := by omega
  rw [natDigits, natDigitsAux_ge10 _ _ _ (by omega),
      natDigitsAux_ge10_pos _ _ _ (by omega) (by omega), d2,
      natDigitsAux_ge10_pos _ _ _ (by omega) (by omega), d3,
      natDigitsAux_lt10_pos _ _ _ (by omega) (by omega)]

theorem natDigits_four_length (y : Nat) (h1 : 1000 ≤ y) (h2 : y ≤ 9999) :
    (natDigits y).length = 4 := by
  rw [natDigits_four y h1 h2]
  rfl

/-- Lexicographic comparison of two strings that start with four-digit
decimal renderings of different numbers is decided by those numbers,
whatever follows. -/
theorem jsLt_fourDigit_lt (y z : Nat) (r s : List Nat)
    (hy1 : 1000 ≤ y) (hy2 : y ≤ 9999) (hz1 : 1000 ≤ z) (hz2 : z ≤ 9999) (hlt : y < z) :
    jsLt (natDigits y ++ r) (natDigits z ++ s) = true := by
  rw [natDigits_four y hy1 hy2, natDigits_four z hz1 hz2]
  simp only [List.cons_append]
  simp only [jsLt]
  split_ifs <;> first | rfl | (exfalso; omega)

theorem isoDate_take_ten (y m d : Nat) (h1 : 1000 ≤ y) (h2 : y ≤ 9999) :
    (isoDate y m d).take 10 = isoDate y m d := by
  apply List.take_of_length_le
  rw [isoDate]
  simp [natDigits_four_length y h1 h2, pad2]

theorem isoDate_ne_nil (y m d : Nat) (h1 : 1000 ≤ y) (h2 : y ≤ 9999) :
    (isoDate y m d).isEmpty = false := by
  rw [isoDate, natDigits_four y h1 h2]
  rfl

theorem isoDate_assoc (y m d : Nat) :
    isoDate y m d = natDigits y ++ ((45 :: pad2 m) ++ (45 :: pad2 d)) := by
  rw [isoDate, List.append_assoc]

/-- The page-level secondary filter drops every record whose decision
date has a year outside the configured window. -/
theorem pageFilterSkips_out (cfg : Config) (cluster : Cluster) (y m d : Nat)
    (hsy1 : 1000 ≤ cfg.startYear) (hsy2 : cfg.startYear ≤ 9999)
    (hey1 : 1000 ≤ cfg.endYear) (hey2 : cfg.endYear ≤ 9999)
    (hy1 : 1000 ≤ y) (hy2 : y ≤ 9999)
    (hout : y < cfg.startYear ∨ cfg.endYear < y)
    (hdf : cluster.date_filed = some (isoDate y m d)) :
    pageFilterSkips cfg cluster = true := by
  have hne : (isoDate y m d).isEmpty = false := isoDate_ne_nil y m d hy1 hy2
  simp only [pageFilterSkips, hdf, firstTruthy, hne, Bool.false_eq_true, if_false,
    isoDate_take_ten y m d hy1 hy2, Bool.and_eq_true, Bool.not_eq_true', Bool.or_eq_true]
  refine ⟨trivial, ?_⟩
  rcases hout with h | h
  · left
    rw [isoDate_assoc, pageMinStr]
    exact jsLt_fourDigit_lt y cfg.startYear _ _ hy1 hy2 hsy1 hsy2 h
  · right
    rw [isoDate_assoc, pageMaxStr]
    exact jsLt_fourDigit_lt cfg.endYear y _ _ hey1 hey2 hy1 hy2 h

/-- The record-level defensive guard fires on every decision date with
a year outside the configured window. -/
theorem recordDateSkips_out (cfg : Config) (cluster : Cluster) (y m d : Nat)
    (hsy1 : 1000 ≤ cfg.startYear) (hsy2 : cfg.startYear ≤ 9999)
    (hey1 : 1000 ≤ cfg.endYear) (hey2 : cfg.endYear ≤ 9999)
    (hy1 : 1000 ≤ y) (hy2 : y ≤ 9999)
    (hout : y < cfg.startYear ∨ cfg.endYear < y)
    (hdf : cluster.date_filed = some (isoDate y m d)) :
    recordDateSkips cfg (truthyStr cluster.date_filed) = true := by
  have hne : (isoDate y m d).isEmpty = false := isoDate_ne_nil y m d hy1 hy2
  have hdd : truthyStr cluster.date_filed = some (isoDate y m d) := by
    rw [hdf]; simp [truthyStr, hne]
  rw [hdd]
  simp only [recordDateSkips, Bool.or_eq_true]
  rcases hout with h | h
  · left
    rw [isoDate_assoc, recordMinStr]
    exact jsLt_fourDigit_lt y cfg.startYear _ _ hy1 hy2 hsy1 hsy2 h
  · right
    rw [isoDate_assoc, recordMaxStr]
    exact jsLt_fourDigit_lt cfg.endYear y _ _ hey1 hey2 hy1 hy2 h

/-- C1: a record whose well-formed decision date lies in a year outside
the configured window START_YEAR..END_YEAR is dropped by the page-level
secondary date filter with no store change, and even when handed
directly to processCluster the store is left unchanged — in particular
no CaseDocument and no OpinionChunk is created — with the record-level
date guard the path taken whenever the quick already-indexed skip does
not fire first.  (Despite their differing literal upper bounds, both
guards reject every out-of-window year, because every month renders
lexicographically below the unpadded month five of the page-level
bound.) -/
theorem c1_out_of_window_skipped (cfg : Config) (env : Env) (store : Store) (cluster : Cluster)
    (y m d : Nat)
    (hsy1 : 1000 ≤ cfg.startYear) (hsy2 : cfg.startYear ≤ 9999)
    (hey1 : 1000 ≤ cfg.endYear) (hey2 : cfg.endYear ≤ 9999)
    (hy1 : 1000 ≤ y) (hy2 : y ≤ 9999)
    (hout : y < cfg.startYear ∨ cfg.endYear < y)
    (hdf : cluster.date_filed = some (isoDate y m d)) :
    recordStep cfg env store cluster = (store, .attempt cluster.id .filtered)
    ∧ (processCluster cfg env store cluster).1 = store
    ∧ ((∀ c, store.cases.find? (fun x => x.case_id == caseIdOf cluster.id) = some c →
          c.indexed ≠ some true) →
        processCluster cfg env store cluster = (store, .skippedDate)) := by
  have hp := pageFilterSkips_out cfg cluster y m d hsy1 hsy2 hey1 hey2 hy1 hy2 hout hdf
  have hr := recordDateSkips_out cfg cluster y m d hsy1 hsy2 hey1 hey2 hy1 hy2 hout hdf
  refine ⟨?_, ?_, ?_⟩
  · simp [recordStep, hp]
  · by_cases hidx : alreadyIndexed store (caseIdOf cluster.id) = true
    · simp [processCluster, hidx]
    · have hidx2 : alreadyIndexed store (caseIdOf cluster.id) = false :=
        Bool.eq_false_iff.mpr hidx
      simp [processCluster, hidx2, hr]
  · intro hno
    have hidx2 : alreadyIndexed store (caseIdOf cluster.id) = false := by
      unfold alreadyIndexed
      cases hfind : store.cases.find? (fun x => x.case_id == caseIdOf cluster.id) with
      | none => rfl
      | some c =>
        have hne := hno c hfind
        simp [hne]
    simp [processCluster, hidx2, hr]

/-- A benign concrete environment for witnesses: one chunk per text,
an always-successful embedding stub, the identity in place of the
SHA-1 hex digest, and an exhausted upstream. -/
def envA : Env :=
  { fetchOpinions := fun _ => .ok []
  , split := fun t => [t]
  , embedRaw := fun xs => .ok (xs.map (fun _ => []))
  , sha1 := fun s => s
  , fetchPage := fun _ => { results := [], next := none }
  , now := [] }

/-- An empty store for witnesses. -/
def storeA : Store := { cases := [], opinions := [], control := [] }

/-- A concrete configuration for witnesses. -/
def cfgA : Config :=
  { startYear := 2000, endYear := 2024
  , base := strCodes "https://www.courtlistener.com"
  , jobId := strCodes "scotus_2000_2024" }

/-- A record dated 1999-06-15, outside the window of `cfgA`. -/
def clusterC1 : Cluster :=
  { id := 7, case_name := none, case_name_full := none
  , date_filed := some (isoDate 1999 6 15)
  , docket := none, docket_number := none, citations := none }

/-- Witness for C1 at a concrete out-of-window record. -/
theorem c1_out_of_window_skipped_witness :
    recordStep cfgA envA storeA clusterC1 = (storeA, .attempt 7 .filtered)
    ∧ processCluster cfgA envA storeA clusterC1 = (storeA, .skippedDate) :=
  ⟨(c1_out_of_window_skipped cfgA envA storeA clusterC1 1999 6 15
      (by decide) (by decide) (by decide) (by decide) (by decide) (by decide)
      (Or.inl (by decide)) rfl).1,
   (c1_out_of_window_skipped cfgA envA storeA clusterC1 1999 6 15
      (by decide) (by decide) (by decide) (by decide) (by decide) (by decide)
      (Or.inl (by decide)) rfl).2.2 (fun c h => Option.noConfusion h)⟩

/-- C8: the backoff wait duration min(30000, 300·2^attempt) plus a
jitter below 500 ms is strictly increasing from each attempt to the
next, up to the cap: the base delay reaches the 30000 ms cap at attempt
7, and for every transition up to that point (attempts 1..6 to their
successors) the doubling of the base exceeds any jitter difference, so
the wait strictly increases whatever jitters are drawn. -/
theorem c8_backoff_strictly_increasing (a j j2 : Nat)
    (h1 : 1 ≤ a) (h2 : a ≤ 6) (hj : j < 500) (hj2 : j2 < 500) :
    backoffWait a j < backoffWait (a + 1) j2 := by
  interval_cases a <;> simp only [backoffWait, backoffBase] <;> norm_num <;> omega

/-- Witness for C8 at the transition from attempt 6 (base 19200) to the
capped attempt 7 (base 30000), with extreme jitters. -/
theorem c8_backoff_strictly_increasing_witness :
    backoffWait 6 499 < backoffWait 7 0 :=
  c8_backoff_strictly_increasing 6 499 0 (by decide) (by decide) (by decide) (by decide)

/-- C9: with resume enabled, a stored checkpoint whose next_url is the
empty string (the value `writeCheckpoint` stores when the crawl is
exhausted, i.e. for an absent or empty cursor) leaves the start URL at
the configured first page, exactly as when no checkpoint exists; only a
checkpoint carrying a non-empty next_url replaces the first-page URL as
the resume point. -/
theorem c9_empty_checkpoint_starts_fresh (cfg : Config) (env : Env) (store : Store)
    (cp : SeedCheckpoint) (firstUrl : JStr) :
    (cp.next_url = [] → resumeStartUrl true (some cp) firstUrl = firstUrl)
    ∧ resumeStartUrl true none firstUrl = firstUrl
    ∧ (cp.next_url ≠ [] → resumeStartUrl true (some cp) firstUrl = cp.next_url)
    ∧ (readCheckpoint cfg store = some cp → cp.next_url = [] →
        loadAllCasesStartUrl cfg true store = buildClustersFirstPageUrl cfg)
    ∧ (readCheckpoint cfg store = some cp → cp.next_url ≠ [] →
        loadAllCasesStartUrl cfg true store = cp.next_url)
    ∧ (checkpointDoc cfg env none).next_url = []
    ∧ (checkpointDoc cfg env (some [])).next_url = [] := by
  have hres : ∀ u : JStr, cp.next_url = [] → resumeStartUrl true (some cp) u = u := by
    intro u h
    simp [resumeStartUrl, h]
  have hres2 : ∀ u : JStr, cp.next_url ≠ [] → resumeStartUrl true (some cp) u = cp.next_url := by
    intro u h
    cases hnu : cp.next_url with
    | nil => exact absurd hnu h
    | cons a l => simp [resumeStartUrl, hnu]
  refine ⟨hres _, by simp [resumeStartUrl], hres2 _, ?_, ?_, by simp [checkpointDoc, firstTruthy],
    by simp [checkpointDoc, firstTruthy]⟩
  · intro hread hnil
    rw [loadAllCasesStartUrl, hread]
    exact hres _ hnil
  · intro hread hnn
    rw [loadAllCasesStartUrl, hread]
    exact hres2 _ hnn

/-- An exhausted checkpoint for the witness job. -/
def cpC9 : SeedCheckpoint :=
  { job_id := strCodes "scotus_2000_2024", start_year := 2000, end_year := 2024
  , next_url := [], updated_at := [] }

/-- A store holding only the exhausted checkpoint. -/
def storeC9 : Store := { cases := [], opinions := [], control := [cpC9] }

/-- Witness for C9: resuming over an exhausted checkpoint starts from
the built first-page URL. -/
theorem c9_empty_checkpoint_starts_fresh_witness :
    loadAllCasesStartUrl cfgA true storeC9 = buildClustersFirstPageUrl cfgA ∧
    resumeStartUrl true (some cpC9) (strCodes "u") = strCodes "u" :=
  ⟨(c9_empty_checkpoint_starts_fresh cfgA envA storeC9 cpC9 []).2.2.2.1 (by decide) (by decide),
   (c9_empty_checkpoint_starts_fresh cfgA envA storeC9 cpC9 (strCodes "u")).1 (by decide)⟩

/-- C6: content_hash is a deterministic function of the (opinion_id,
chunk_index, text) triple: two chunk documents built from the same
opinion id, chunk index and text — under any other case id, section,
author, decision date, base URL or vector, i.e. in the same run or
across runs of the same hash algorithm — carry the same content hash,
namely the digest of the colon-joined triple. -/
theorem c6_content_hash_deterministic (sha1fn : JStr → JStr)
    (base1 base2 cid1 cid2 : JStr) (sec1 sec2 : Section) (a1 a2 dd1 dd2 : Option JStr)
    (v1 v2 : Option Vec) (opinionId i : Nat) (c : JStr) :
    (buildChunkDoc base1 sha1fn cid1 sec1 a1 dd1 opinionId i c v1).content_hash
      = (buildChunkDoc base2 sha1fn cid2 sec2 a2 dd2 opinionId i c v2).content_hash
    ∧ (buildChunkDoc base1 sha1fn cid1 sec1 a1 dd1 opinionId i c v1).content_hash
      = sha1fn (natDigits opinionId ++ [58] ++ natDigits i ++ [58] ++ c) :=
  ⟨rfl, rfl⟩

/-- C4: when the stored CaseDocument for the record's derived case id
already has indexed=true, processCluster returns right after that one
read: the result is the same for every opinions-fetch function (so the
record's sub-documents are never fetched), and the store — every
CaseDocument, OpinionChunk and checkpoint — is returned unchanged. -/
theorem c4_indexed_record_skip (cfg : Config) (env : Env)
    (fo : Nat → Except JStr (List Op)) (store : Store) (cluster : Cluster) (cDoc : CaseDoc)
    (hfind : store.cases.find? (fun c => c.case_id == caseIdOf cluster.id) = some cDoc)
    (hidx : cDoc.indexed = some true) :
    processCluster cfg { env with fetchOpinions := fo } store cluster =
      (store, .skippedIndexed) := by
  have h : alreadyIndexed store (caseIdOf cluster.id) = true := by
    unfold alreadyIndexed
    rw [hfind]
    simp [hidx]
  simp [processCluster, h]

/-- A case document already marked indexed. -/
def cDocC4 : CaseDoc :=
  { case_id := caseIdOf 7, case_name := none, docket := none, decision_date := none
  , provider := none, court := none, citations := none, source_urls := none
  , indexed := some true, opinions_count := some 3 }

/-- A store holding the indexed case document. -/
def storeC4 : Store := { cases := [cDocC4], opinions := [], control := [] }

/-- Witness for C4: re-submitting the indexed record changes nothing,
even under an opinions fetch that would throw if consulted. -/
theorem c4_indexed_record_skip_witness :
    processCluster cfgA { envA with fetchOpinions := fun _ => .error (strCodes "boom") }
      storeC4 clusterC1 = (storeC4, .skippedIndexed) :=
  c4_indexed_record_skip cfgA envA (fun _ => .error (strCodes "boom")) storeC4 clusterC1 cDocC4
    (by decide) (by decide)

/-- Any nine consecutive failing attempts — whatever mix of non-2xx
statuses and network errors — exhaust the retry budget: while the
attempt counter is at most 8 every failure is retried (the
non-retriable statuses through the catch), and on the ninth the catch
rethrows terminally, regardless of the scripted outcomes beyond it. -/
theorem fetch_fail_aux : ∀ (os rest : List FetchOutcome) (a : Nat),
    1 ≤ a → a ≤ 9 → a + os.length = 10 → (∀ o ∈ os, failOutcome o = true) →
    isFailResult (fetchJsonWithRetry (os ++ rest) a) = true := by
  intro os
  induction os with
  | nil =>
    intro rest a h1 h2 h3 h4
    simp at h3
    exact absurd h3 (by omega)
  | cons o os' ih =>
    intro rest a h1 h2 h3 h4
    have ho : failOutcome o = true := h4 o (by simp)
    cases os' with
    | nil =>
      have ha : a = 9 := by simp at h3; omega
      subst ha
      cases o with
      | response s b =>
        have hnok : statusOk s = false := by simpa [failOutcome] using ho
        simp [fetchJsonWithRetry, hnok, isFailResult]
      | netErr m =>
        simp [fetchJsonWithRetry, isFailResult]
    | cons o2 os2 =>
      have ha : a ≤ 8 := by simp at h3; omega
      have hstep : fetchJsonWithRetry (o :: ((o2 :: os2) ++ rest)) a
          = fetchJsonWithRetry ((o2 :: os2) ++ rest) (a + 1) := by
        cases o with
        | response s b =>
          have hnok : statusOk s = false := by simpa [failOutcome] using ho
          by_cases hc : retriableStatuses.contains s = true
          · have hmem : s ∈ retriableStatuses := by simpa using hc
            simp [fetchJsonWithRetry, hnok, hmem, ha]
          · have hmem : s ∉ retriableStatuses := fun hm => hc (by simpa using hm)
            simp [fetchJsonWithRetry, hnok, hmem, ha]
        | netErr m =>
          simp [fetchJsonWithRetry, ha]
      rw [List.cons_append, hstep]
      refine ih rest (a + 1) (by omega) (by omega) (by simp at h3 ⊢; omega) ?_
      intro x hx
      exact h4 x (by simp [hx])

/-- C3 counterexample: failures do not behave as the claim says on
either count.  Eight consecutive retriable failures do NOT make the
call fail terminally: the fetcher retries while the attempt counter is
at most 8, so after eight 429 responses a ninth attempt happens, and a
200 there returns the payload.  And a non-retriable 404 does NOT fail
immediately: its line-144 throw is caught by the same invocation's
catch and retried, so a 404 followed by a 200 also returns the
payload. -/
theorem c3_failures_then_success_returns_ok :
    fetchJsonWithRetry
      (List.replicate 8 (FetchOutcome.response 429 []) ++
        [FetchOutcome.response 200 (strCodes "payload")]) 1
      = some (.ok (strCodes "payload"))
    ∧ fetchJsonWithRetry
        [FetchOutcome.response 404 (strCodes "not found"),
         FetchOutcome.response 200 (strCodes "payload")] 1
      = some (.ok (strCodes "payload")) := by
  constructor <;> decide

/-- C3 (amended): a request whose attempts all fail — with any non-2xx
HTTP status (retriable or not), a network error, or a timeout — is
retried with backoff while the attempt counter is at most 8, and after
NINE consecutive failures (the initial attempt plus eight retries) the
call fails terminally with an error the caller must not retry further.
A non-retriable non-2xx status does not fail immediately: the error
thrown on seed.ts line 144 is caught by the same invocation's catch
and retried like a network failure, and only at the ninth attempt does
it become the terminal error, which carries the 300-unit-truncated
response body of that last attempt. -/
theorem c3_retry_ceiling :
    (∀ os rest, os.length = 9 → (∀ o ∈ os, failOutcome o = true) →
      isFailResult (fetchJsonWithRetry (os ++ rest) 1) = true)
    ∧ (∀ s b rest a, statusOk s = false → 1 ≤ a → a ≤ 8 →
        fetchJsonWithRetry (.response s b :: rest) a = fetchJsonWithRetry rest (a + 1))
    ∧ (∀ s b rest, statusOk s = false →
        fetchJsonWithRetry (.response s b :: rest) 9
          = some (.terminal (.http s (b.take 300)))) := by
  refine ⟨?_, ?_, ?_⟩
  · intro os rest hlen hall
    exact fetch_fail_aux os rest 1 (by omega) (by omega) (by omega) hall
  · intro s b rest a h1 ha1 ha8
    by_cases hc : retriableStatuses.contains s = true
    · have hmem : s ∈ retriableStatuses := by simpa using hc
      simp [fetchJsonWithRetry, h1, hmem, ha8]
    · have hmem : s ∉ retriableStatuses := fun hm => hc (by simpa using hm)
      simp [fetchJsonWithRetry, h1, hmem, ha8]
  · intro s b rest h1
    simp [fetchJsonWithRetry, h1]

/-- Witness for C3: nine consecutive 404 responses end in the terminal
error; a 404 at attempt 1 is retried, consuming the next scripted
outcome; and a 404 on the ninth attempt is the terminal error carrying
its truncated body. -/
theorem c3_retry_ceiling_witness :
    isFailResult
        (fetchJsonWithRetry (List.replicate 9 (FetchOutcome.response 404 []) ++ []) 1) = true
    ∧ fetchJsonWithRetry [FetchOutcome.response 404 (strCodes "nf"),
        FetchOutcome.response 200 (strCodes "p")] 1
      = fetchJsonWithRetry [FetchOutcome.response 200 (strCodes "p")] 2
    ∧ fetchJsonWithRetry [FetchOutcome.response 404 (strCodes "nf")] 9
      = some (.terminal (.http 404 ((strCodes "nf").take 300))) :=
  ⟨c3_retry_ceiling.1 (List.replicate 9 (FetchOutcome.response 404 [])) []
      (by decide) (by decide),
   c3_retry_ceiling.2.1 404 (strCodes "nf") [FetchOutcome.response 200 (strCodes "p")] 1
      (by decide) (by decide) (by decide),
   c3_retry_ceiling.2.2 404 (strCodes "nf") [] (by decide)⟩

/-! ### Dedup insert layer: key lemmas and the C2 analysis -/

theorem chunkKeyEq_iff (a b : Chunk) :
    chunkKeyEq a b = true ↔
      (a.case_id = b.case_id ∧ a.opinion_id = b.opinion_id ∧ a.content_hash = b.content_hash) := by
  simp [chunkKeyEq, Bool.and_eq_true, and_assoc]

theorem chunkKeyEq_refl (a : Chunk) : chunkKeyEq a a = true :=
  (chunkKeyEq_iff a a).mpr ⟨rfl, rfl, rfl⟩

theorem chunkKeyEq_symm (a b : Chunk) (h : chunkKeyEq a b = true) : chunkKeyEq b a = true := by
  rw [chunkKeyEq_iff] at h ⊢
  exact ⟨h.1.symm, h.2.1.symm, h.2.2.symm⟩

theorem chunkKeyEq_trans (a b c : Chunk) (h1 : chunkKeyEq a b = true)
    (h2 : chunkKeyEq b c = true) : chunkKeyEq a c = true := by
  rw [chunkKeyEq_iff] at h1 h2 ⊢
  exact ⟨h1.1.trans h2.1, h1.2.1.trans h2.2.1, h1.2.2.trans h2.2.2⟩

theorem probeExists_append (s t : List Chunk) (d : Chunk) :
    probeExists (s ++ t) d = (probeExists s d || probeExists t d) := by
  simp [probeExists, List.any_append]

theorem probeExists_of_mem (s : List Chunk) (d : Chunk) (h : d ∈ s) :
    probeExists s d = true := by
  simp only [probeExists, List.any_eq_true]
  exact ⟨d, h, chunkKeyEq_refl d⟩

theorem probeExists_false_forall (s : List Chunk) (d : Chunk) (h : probeExists s d = false) :
    ∀ e ∈ s, chunkKeyEq e d = false := by
  simp only [probeExists, List.any_eq_false] at h
  intro e he
  exact Bool.eq_false_iff.mpr (h e he)

def keyCount (l : List Chunk) (d : Chunk) : Nat :=
  (l.filter (fun e => chunkKeyEq e d)).length

def AtMostOnePerKey (l : List Chunk) : Prop := ∀ d ∈ l, keyCount l d ≤ 1

theorem keyCount_append (s t : List Chunk) (d : Chunk) :
    keyCount (s ++ t) d = keyCount s d + keyCount t d := by
  simp [keyCount, List.filter_append]

theorem keyCount_eq_zero (s : List Chunk) (d : Chunk)
    (h : ∀ e ∈ s, chunkKeyEq e d = false) : keyCount s d = 0 := by
  simp only [keyCount, List.length_eq_zero]
  exact List.filter_eq_nil_iff.mpr (fun e he => by simp [h e he])

theorem keyCount_pos_exists (s : List Chunk) (d : Chunk) (h : 0 < keyCount s d) :
    ∃ f ∈ s, chunkKeyEq f d = true := by
  simp only [keyCount] at h
  rcases List.exists_mem_of_length_pos h with ⟨f, hf⟩
  rcases List.mem_filter.mp hf with ⟨hf1, hf2⟩
  exact ⟨f, hf1, hf2⟩

theorem pairwise_keyCount (l : List Chunk)
    (hp : List.Pairwise (fun a b => chunkKeyEq a b = false) l) (d : Chunk) :
    keyCount l d ≤ 1 := by
  induction l with
  | nil => simp [keyCount]
  | cons a t ih =>
    have hp2 := List.pairwise_cons.mp hp
    by_cases ha : chunkKeyEq a d = true
    · have hz : keyCount t d = 0 := by
        apply keyCount_eq_zero
        intro e he
        by_contra hne
        have he2 : chunkKeyEq e d = true := by
          cases hhe : chunkKeyEq e d with
          | true => rfl
          | false => exact absurd hhe hne
        have h3 : chunkKeyEq a e = true :=
          chunkKeyEq_trans a d e ha (chunkKeyEq_symm e d he2)
        have h4 := hp2.1 e he
        rw [h4] at h3
        exact Bool.noConfusion h3
      have hstep : keyCount (a :: t) d = keyCount t d + 1 := by
        simp [keyCount, List.filter_cons, ha]
      omega
    · have ha2 : chunkKeyEq a d = false := Bool.eq_false_iff.mpr ha
      have hstep : keyCount (a :: t) d = keyCount t d := by
        simp [keyCount, List.filter_cons, ha2]
      have := ih hp2.2
      omega

theorem insertBatchesAux_eq (fuel : Nat) : ∀ (docs store : List Chunk) (n : Nat),
    docs.length ≤ fuel → List.Pairwise (fun a b => chunkKeyEq a b = false) docs →
    insertBatchesAux fuel store docs n =
      (store ++ docs.filter (fun d => !probeExists store d),
       n + (docs.filter (fun d => !probeExists store d)).length) := by
  induction fuel with
  | zero =>
    intro docs store n hl hp
    have : docs = [] := List.length_eq_zero.mp (by omega)
    subst this
    simp [insertBatchesAux]
  | succ fuel ih =>
    intro docs store n hl hp
    cases docs with
    | nil => simp [insertBatchesAux]
    | cons d ds =>
      have hp' := hp
      rw [← List.take_append_drop 40 (d :: ds)] at hp'
      rcases List.pairwise_append.mp hp' with ⟨hpTake, hpDrop, hcross⟩
      have hfresh : ∀ x ∈ (d :: ds).drop 40,
          probeExists (((d :: ds).take 40).filter (fun y => !probeExists store y)) x = false := by
        intro x hx
        simp only [probeExists, List.any_eq_false]
        intro e he
        have he2 : e ∈ (d :: ds).take 40 := List.mem_of_mem_filter he
        simp [hcross e he2 x hx]
      have heq : ((d :: ds).drop 40).filter
            (fun x => !probeExists (store ++ ((d :: ds).take 40).filter
              (fun y => !probeExists store y)) x)
          = ((d :: ds).drop 40).filter (fun x => !probeExists store x) := by
        apply List.filter_congr
        intro x hx
        rw [probeExists_append, hfresh x hx]
        simp
      have hlen2 : ((d :: ds).drop 40).length ≤ fuel := by
        simp only [List.length_drop]
        simp at hl ⊢
        omega
      show insertBatchesAux (fuel + 1) store (d :: ds) n = _
      rw [insertBatchesAux]
      rw [ih ((d :: ds).drop 40) _ _ hlen2 hpDrop, heq]
      have hsplit : (d :: ds).filter (fun x => !probeExists store x)
          = ((d :: ds).take 40).filter (fun x => !probeExists store x)
            ++ ((d :: ds).drop 40).filter (fun x => !probeExists store x) := by
        rw [← List.filter_append, List.take_append_drop]
      rw [hsplit]
      simp only [Prod.mk.injEq]
      refine ⟨by rw [List.append_assoc], by simp [List.length_append]; omega⟩


theorem batchSlicesAux_le (fuel : Nat) : ∀ (docs : List Chunk) (s : List Chunk),
    s ∈ batchSlicesAux fuel docs → s.length ≤ 40 := by
  induction fuel with
  | zero =>
    intro docs s hs
    cases docs <;> simp [batchSlicesAux] at hs
  | succ fuel ih =>
    intro docs s hs
    cases docs with
    | nil => simp [batchSlicesAux] at hs
    | cons d ds =>
      simp only [batchSlicesAux, List.mem_cons] at hs
      rcases hs with h | h
      · subst h
        simp [List.length_take]
      · exact ih _ _ h

theorem batchSlicesAux_flatten (fuel : Nat) : ∀ docs : List Chunk, docs.length ≤ fuel →
    (batchSlicesAux fuel docs).flatten = docs := by
  induction fuel with
  | zero =>
    intro docs hl
    have : docs = [] := List.length_eq_zero.mp (by omega)
    subst this
    simp [batchSlicesAux]
  | succ fuel ih =>
    intro docs hl
    cases docs with
    | nil => simp [batchSlicesAux]
    | cons d ds =>
      have hlen2 : ((d :: ds).drop 40).length ≤ fuel := by
        simp only [List.length_drop]
        simp at hl ⊢
        omega
      simp only [batchSlicesAux, List.flatten_cons]
      rw [ih _ hlen2, List.take_append_drop]

/-- The batch loop is exactly a left fold of the probe-then-insertMany
step over the successive sub-batches. -/
theorem insertBatchesAux_eq_foldl (fuel : Nat) : ∀ (docs store : List Chunk) (n : Nat),
    insertBatchesAux fuel store docs n =
      (batchSlicesAux fuel docs).foldl
        (fun acc slice =>
          (acc.1 ++ slice.filter (fun x => !probeExists acc.1 x),
           acc.2 + (slice.filter (fun x => !probeExists acc.1 x)).length)) (store, n) := by
  induction fuel with
  | zero =>
    intro docs store n
    cases docs <;> simp [insertBatchesAux, batchSlicesAux]
  | succ fuel ih =>
    intro docs store n
    cases docs with
    | nil => simp [insertBatchesAux, batchSlicesAux]
    | cons d ds =>
      rw [insertBatchesAux, batchSlicesAux]
      simp only [List.foldl_cons]
      exact ih _ _ _

/-- A concrete OpinionChunk candidate. -/
def dupChunk : Chunk :=
  { case_id := strCodes "cl:1", sec := .other, author := none
  , opinion_id := strCodes "clop:5", chunk_index := 0, text := strCodes "x"
  , vector := none, decision_date := none, content_hash := strCodes "h"
  , source_url := [] }

/-- C2 counterexample: a batch containing two candidates with the same
(case_id, opinion_id, content_hash) key in one 40-slice inserts both —
each probe runs against pre-batch storage, and insertMany lands them
together — so storage ends up holding the key twice, falsifying the
unconditional at-most-one-per-triple consequence of the claim. -/
theorem c2_duplicate_batch_double_insert :
    (insertOpinionChunks [] [dupChunk, dupChunk]).1 = [dupChunk, dupChunk]
    ∧ keyCount (insertOpinionChunks [] [dupChunk, dupChunk]).1 dupChunk = 2
    ∧ (insertOpinionChunks [] [dupChunk, dupChunk]).2 = some 2 := by
  refine ⟨by decide, by decide, by decide⟩

/-- C2 (amended): for every batch of OpinionChunk candidates with
pairwise-distinct (case_id, opinion_id, content_hash) keys,
insertOpinionChunks probes storage by the exact key for each candidate
and appends exactly those not already present, returns the count
actually inserted (the `inserted || 0` coercion reading an empty
batch's undefined as 0), processes the candidates as a left fold over
sub-batches of at most 40 that partition the batch, preserves the
at-most-one-chunk-per-key invariant of storage, and on a re-run over
the same batch finds every key present and inserts nothing (all under
a single active writer). -/
theorem c2_insert_dedup_idempotent (store docs : List Chunk)
    (hdist : List.Pairwise (fun a b => chunkKeyEq a b = false) docs) :
    (insertOpinionChunks store docs).1
        = store ++ docs.filter (fun d => !probeExists store d)
    ∧ (insertOpinionChunks store docs).2.getD 0
        = (docs.filter (fun d => !probeExists store d)).length
    ∧ (AtMostOnePerKey store → AtMostOnePerKey (insertOpinionChunks store docs).1)
    ∧ insertOpinionChunks (insertOpinionChunks store docs).1 docs
        = ((insertOpinionChunks store docs).1, if docs.isEmpty then none else some 0)
    ∧ (∀ s ∈ batchSlices docs, s.length ≤ 40)
    ∧ (batchSlices docs).flatten = docs
    ∧ (docs.isEmpty = false →
        insertOpinionChunks store docs =
          (((batchSlices docs).foldl
              (fun acc slice =>
                (acc.1 ++ slice.filter (fun x => !probeExists acc.1 x),
                 acc.2 + (slice.filter (fun x => !probeExists acc.1 x)).length)) (store, 0)).1,
           some (((batchSlices docs).foldl
              (fun acc slice =>
                (acc.1 ++ slice.filter (fun x => !probeExists acc.1 x),
                 acc.2 + (slice.filter (fun x => !probeExists acc.1 x)).length)) (store, 0)).2))) := by
  have hslices : ∀ s ∈ batchSlices docs, s.length ≤ 40 :=
    fun s hs => batchSlicesAux_le docs.length docs s hs
  have hflat : (batchSlices docs).flatten = docs :=
    batchSlicesAux_flatten docs.length docs (le_refl _)
  by_cases hd : docs.isEmpty
  · have hnil : docs = [] := by simpa [List.isEmpty_iff] using hd
    subst hnil
    exact ⟨by simp [insertOpinionChunks], by simp [insertOpinionChunks],
      fun h => by simpa [insertOpinionChunks] using h,
      by simp [insertOpinionChunks], hslices, hflat, by simp⟩
  · have hne : docs.isEmpty = false := Bool.eq_false_iff.mpr hd
    have key := insertBatchesAux_eq docs.length docs store 0 (le_refl _) hdist
    have h1 : insertOpinionChunks store docs =
        (store ++ docs.filter (fun d => !probeExists store d),
         some (docs.filter (fun d => !probeExists store d)).length) := by
      simp [insertOpinionChunks, hne, key]
    have hall : ∀ x ∈ docs,
        probeExists (store ++ docs.filter (fun d => !probeExists store d)) x = true := by
      intro x hx
      rw [probeExists_append]
      cases hpx : probeExists store x with
      | true => simp
      | false =>
        have hxF : x ∈ docs.filter (fun d => !probeExists store d) :=
          List.mem_filter.mpr ⟨hx, by simp [hpx]⟩
        simp [probeExists_of_mem _ x hxF]
    refine ⟨by rw [h1], by simp [h1], ?_, ?_, hslices, hflat, ?_⟩
    · intro hmo
      rw [h1]
      intro d hdmem
      rw [keyCount_append]
      rcases List.mem_append.mp hdmem with hds | hdf
      · have h1le := hmo d hds
        have h0 : keyCount (docs.filter (fun d2 => !probeExists store d2)) d = 0 := by
          apply keyCount_eq_zero
          intro e heF
          rcases List.mem_filter.mp heF with ⟨heDocs, heP⟩
          by_contra hne2
          have he2 : chunkKeyEq e d = true := by
            cases hhe : chunkKeyEq e d with
            | true => rfl
            | false => exact absurd hhe hne2
          have hpe : probeExists store e = true := by
            simp only [probeExists, List.any_eq_true]
            exact ⟨d, hds, chunkKeyEq_symm e d he2⟩
          simp [hpe] at heP
        omega
      · have hF : keyCount (docs.filter (fun d2 => !probeExists store d2)) d ≤ 1 :=
          pairwise_keyCount _ (hdist.filter _) d
        have h0 : keyCount store d = 0 := by
          apply keyCount_eq_zero
          rcases List.mem_filter.mp hdf with ⟨hdDocs, hdP⟩
          have hpf : probeExists store d = false := by
            cases hp2 : probeExists store d with
            | false => rfl
            | true => simp [hp2] at hdP
          exact probeExists_false_forall store d hpf
        omega
    · have hFnil : docs.filter
          (fun x => !probeExists (store ++ docs.filter (fun d => !probeExists store d)) x)
          = [] :=
        List.filter_eq_nil_iff.mpr (fun x hx => by simp [hall x hx])
      have key2 := insertBatchesAux_eq docs.length docs
        (store ++ docs.filter (fun d => !probeExists store d)) 0 (le_refl _) hdist
      rw [hFnil] at key2
      rw [h1]
      simp [insertOpinionChunks, hne, key2]
    · intro h
      simp [insertOpinionChunks, hne, batchSlices, insertBatchesAux_eq_foldl]


/-- A second candidate with a distinct dedup key. -/
def freshChunk : Chunk :=
  { dupChunk with content_hash := strCodes "h2", chunk_index := 1 }

/-- Witness for C2: a distinct-key batch over a store already holding
one of the keys — the invariant is preserved and the re-run inserts
nothing. -/
theorem c2_insert_dedup_idempotent_witness :
    AtMostOnePerKey (insertOpinionChunks [dupChunk] [dupChunk, freshChunk]).1
    ∧ insertOpinionChunks (insertOpinionChunks [dupChunk] [dupChunk, freshChunk]).1
        [dupChunk, freshChunk]
      = ((insertOpinionChunks [dupChunk] [dupChunk, freshChunk]).1, some 0) := by
  have h := c2_insert_dedup_idempotent [dupChunk] [dupChunk, freshChunk] (by decide)
  exact ⟨h.2.2.1 (by unfold AtMostOnePerKey; decide), by simpa using h.2.2.2.1⟩

/-! ### findOne/updateOne lemmas and the C7 analysis -/

/-- findOne after an updateOne that rewrites the first match with a
filter-preserving update still finds that document, updated. -/
theorem find?_updateFirst (p : α → Bool) (f : α → α) (l : List α)
    (hf : ∀ x, p x = true → p (f x) = true) :
    (updateFirst p f l).find? p = (l.find? p).map f := by
  induction l with
  | nil => simp [updateFirst]
  | cons x xs ih =>
    by_cases hx : p x
    · rw [updateFirst]
      simp [hx, List.find?_cons_of_pos, hf x hx]
    · rw [updateFirst]
      simp only [if_neg hx]
      rw [List.find?_cons_of_neg _ hx, List.find?_cons_of_neg _ hx, ih]

/-- findOne after an upsert that found and updated an existing match. -/
theorem find?_upsertWith_found (p : α → Bool) (f : α → α) (ins : α) (l : List α) (x : α)
    (hfind : l.find? p = some x) (hf : ∀ y, p y = true → p (f y) = true) :
    (upsertWith p f ins l).find? p = some (f x) := by
  have hany : l.any p = true := by
    simp only [List.any_eq_true]
    exact ⟨x, List.mem_of_find?_eq_some hfind, List.find?_some hfind⟩
  rw [upsertWith, if_pos hany, find?_updateFirst p f l hf, hfind]
  rfl

/-- findOne after an upsert that inserted (nothing matched). -/
theorem find?_upsertWith_none (p : α → Bool) (f : α → α) (ins : α) (l : List α)
    (hfind : l.find? p = none) (hins : p ins = true) :
    (upsertWith p f ins l).find? p = some ins := by
  have hany : l.any p = false := by
    cases hq : l.any p with
    | false => rfl
    | true =>
      rcases List.any_eq_true.mp hq with ⟨y, hy, hpy⟩
      have : (l.find? p).isSome := List.find?_isSome.mpr ⟨y, hy, hpy⟩
      rw [hfind] at this
      simp at this
  rw [upsertWith, if_neg (by simp [hany]), List.find?_append, hfind]
  simp [hins]

/-- The CaseDoc written for a cluster carries the derived case id. -/
theorem clusterCaseDoc_case_id (cfg : Config) (cluster : Cluster) :
    (clusterCaseDoc cfg cluster).case_id = caseIdOf cluster.id := rfl

/-- After the metadata upsert, findOne by the derived case id returns
exactly the written CaseDoc. -/
theorem find?_upsertCase (cases : List CaseDoc) (cfg : Config) (cluster : Cluster) :
    (upsertCase cases (clusterCaseDoc cfg cluster)).find?
        (fun c => c.case_id == caseIdOf cluster.id)
      = some (clusterCaseDoc cfg cluster) := by
  have hp : ((clusterCaseDoc cfg cluster).case_id == caseIdOf cluster.id) = true := by
    rw [clusterCaseDoc_case_id]
    exact beq_self_eq_true _
  rw [upsertCase, clusterCaseDoc_case_id]
  cases hfind : cases.find? (fun c => c.case_id == caseIdOf cluster.id) with
  | some x =>
    exact find?_upsertWith_found _ _ _ _ x hfind (fun y _ => hp)
  | none =>
    exact find?_upsertWith_none _ _ _ _ hfind hp

/-- After the final indexed update, findOne by case id sees
indexed=true and the written count. -/
theorem find?_markIndexed (cases : List CaseDoc) (cid : JStr) (n : Nat) (x : CaseDoc)
    (hfind : cases.find? (fun c => c.case_id == cid) = some x) :
    ((markIndexed cases cid n).find? (fun c => c.case_id == cid)).map
        (fun c => (c.indexed, c.opinions_count))
      = some (some true, some n) := by
  rw [markIndexed, find?_upsertWith_found (fun c => c.case_id == cid)
    (fun c => { c with indexed := some true, opinions_count := some n }) _ _ x hfind
    (fun y hy => hy)]
  rfl

/-- embedBatch never fails when the raw embedding call never fails. -/
theorem embedBatch_isOk (env : Env) (hembed : ∀ xs, (env.embedRaw xs).isOk = true)
    (texts : List JStr) : (embedBatch env texts).isOk = true := by
  rw [embedBatch]
  by_cases h : ((texts.map trimCodes).filter (fun t => !t.isEmpty)).isEmpty
  · simp [h, Except.isOk, Except.toBool]
  · simp only [if_neg h]
    exact hembed _

/-- The per-opinion loop under a total embedder: when every produced
chunk document is fresh for the store and the produced keys are
pairwise distinct, the loop appends exactly the produced documents and
accumulates their count. -/
theorem opLoop_ok (cfg : Config) (env : Env) (case_id : JStr) (dd : Option JStr)
    (hembed : ∀ xs, (env.embedRaw xs).isOk = true) :
    ∀ (ops : List Op) (st : List Chunk) (total : Nat),
    (∀ x ∈ ops.flatMap (opinionDocsOf cfg env case_id dd), probeExists st x = false) →
    List.Pairwise (fun a b => chunkKeyEq a b = false)
      (ops.flatMap (opinionDocsOf cfg env case_id dd)) →
    opLoop cfg env case_id dd st total ops =
      (st ++ ops.flatMap (opinionDocsOf cfg env case_id dd),
       .ok (total + (ops.flatMap (opinionDocsOf cfg env case_id dd)).length)) := by
  intro ops
  induction ops with
  | nil =>
    intro st total _ _
    simp [opLoop]
  | cons op rest ih =>
    intro st total hfresh hdist
    rw [List.flatMap_cons] at hfresh hdist ⊢
    by_cases ht : (extractOpinionText op).isEmpty
    · have hdocs : opinionDocsOf cfg env case_id dd op = [] := by
        simp [opinionDocsOf, ht]
      rw [hdocs] at hfresh hdist ⊢
      simp only [List.nil_append] at hfresh hdist ⊢
      rw [opLoop]
      simp only [ht, if_true]
      exact ih st total hfresh hdist
    · by_cases hc : (env.split (extractOpinionText op)).isEmpty
      · have hdocs : opinionDocsOf cfg env case_id dd op = [] := by
          simp [opinionDocsOf, ht, hc]
        rw [hdocs] at hfresh hdist ⊢
        simp only [List.nil_append] at hfresh hdist ⊢
        rw [opLoop]
        simp only [ht, hc, if_false, if_true, Bool.false_eq_true]
        exact ih st total hfresh hdist
      · have hok := embedBatch_isOk env hembed (env.split (extractOpinionText op))
        cases hemb : embedBatch env (env.split (extractOpinionText op)) with
        | error e =>
          rw [hemb] at hok
          simp [Except.isOk, Except.toBool] at hok
        | ok vectors =>
          have hdocs : opinionDocsOf cfg env case_id dd op =
              (env.split (extractOpinionText op)).mapIdx (fun i c =>
                buildChunkDoc cfg.base env.sha1 case_id
                  (normalizeSection (jsOrOpt op.type op.opinion_type))
                  (authorOf op) dd op.id i c vectors[i]?) := by
            rw [opinionDocsOf]
            simp only [ht, hc, if_false, Bool.false_eq_true]
            rw [hemb]
          set docs := (env.split (extractOpinionText op)).mapIdx (fun i c =>
              buildChunkDoc cfg.base env.sha1 case_id
                (normalizeSection (jsOrOpt op.type op.opinion_type))
                (authorOf op) dd op.id i c vectors[i]?) with hdocsdef
          rw [hdocs] at hfresh hdist ⊢
          have hdistL : List.Pairwise (fun a b => chunkKeyEq a b = false) docs :=
            (List.pairwise_append.mp hdist).1
          have hdistR : List.Pairwise (fun a b => chunkKeyEq a b = false)
              (rest.flatMap (opinionDocsOf cfg env case_id dd)) :=
            (List.pairwise_append.mp hdist).2.1
          have hcross := (List.pairwise_append.mp hdist).2.2
          have hfilter : docs.filter (fun d => !probeExists st d) = docs := by
            apply List.filter_eq_self.mpr
            intro a ha
            simp [hfresh a (List.mem_append.mpr (Or.inl ha))]
          have hkey := insertBatchesAux_eq docs.length docs st 0 (le_refl _) hdistL
          rw [hfilter] at hkey
          have hlen : docs.length = (env.split (extractOpinionText op)).length := by
            rw [hdocsdef, List.length_mapIdx]
          have hnonempty : docs.isEmpty = false := by
            cases hd2 : docs with
            | nil =>
              rw [hd2] at hlen
              cases hsp : env.split (extractOpinionText op) with
              | nil => rw [hsp] at hc; simp at hc
              | cons a l =>
                rw [hsp] at hlen
                simp at hlen
            | cons a l => rfl
          have hins : insertOpinionChunks st docs = (st ++ docs, some docs.length) := by
            rw [insertOpinionChunks, if_neg (by simp [hnonempty])]
            rw [hkey]
            simp
          rw [opLoop]
          simp only [ht, hc, if_false, Bool.false_eq_true, hemb]
          rw [← hdocsdef, hins]
          simp only [Option.getD_some]
          have hfresh2 : ∀ x ∈ rest.flatMap (opinionDocsOf cfg env case_id dd),
              probeExists (st ++ docs) x = false := by
            intro x hx
            rw [probeExists_append]
            have h1 : probeExists st x = false := hfresh x (List.mem_append.mpr (Or.inr hx))
            have h2 : probeExists docs x = false := by
              simp only [probeExists, List.any_eq_false]
              intro e he
              simp [hcross e he x hx]
            rw [h1, h2]
            rfl
          rw [ih (st ++ docs) (total + docs.length) hfresh2 hdistR]
          rw [List.append_assoc]
          simp only [List.length_append]
          rw [Nat.add_assoc]

/-- The batch loop only ever appends to storage, and its counter
accumulates exactly the number of appended documents — no freshness or
distinctness assumptions needed. -/
theorem insertBatchesAux_growth (fuel : Nat) : ∀ (docs store : List Chunk) (n : Nat),
    ∃ added : List Chunk,
      insertBatchesAux fuel store docs n = (store ++ added, n + added.length) := by
  induction fuel with
  | zero =>
    intro docs store n
    cases docs with
    | nil => exact ⟨[], by simp [insertBatchesAux]⟩
    | cons d ds => exact ⟨[], by simp [insertBatchesAux]⟩
  | succ fuel ih =>
    intro docs store n
    cases docs with
    | nil => exact ⟨[], by simp [insertBatchesAux]⟩
    | cons d ds =>
      obtain ⟨a2, ha2⟩ := ih ((d :: ds).drop 40)
        (store ++ ((d :: ds).take 40).filter (fun x => !probeExists store x))
        (n + (((d :: ds).take 40).filter (fun x => !probeExists store x)).length)
      refine ⟨((d :: ds).take 40).filter (fun x => !probeExists store x) ++ a2, ?_⟩
      rw [insertBatchesAux, ha2]
      simp [List.append_assoc, Nat.add_assoc]

/-- insertOpinionChunks appends some list of documents and returns
exactly its length (through the `inserted || 0` reading). -/
theorem insertOpinionChunks_growth (store docs : List Chunk) :
    ∃ added : List Chunk,
      (insertOpinionChunks store docs).1 = store ++ added
      ∧ (insertOpinionChunks store docs).2.getD 0 = added.length := by
  by_cases hd : docs.isEmpty
  · exact ⟨[], by simp [insertOpinionChunks, hd], by simp [insertOpinionChunks, hd]⟩
  · have hne : docs.isEmpty = false := Bool.eq_false_iff.mpr hd
    obtain ⟨added, ha⟩ := insertBatchesAux_growth docs.length docs store 0
    refine ⟨added, ?_, ?_⟩ <;> simp [insertOpinionChunks, hne, ha]

/-- The per-opinion loop under a total embedder appends some list of
chunk documents to storage and accumulates exactly its length — the
general shape of a completed record, with no freshness assumptions. -/
theorem opLoop_growth (cfg : Config) (env : Env) (case_id : JStr) (dd : Option JStr)
    (hembed : ∀ xs, (env.embedRaw xs).isOk = true) :
    ∀ (ops : List Op) (st : List Chunk) (total : Nat),
    ∃ added : List Chunk,
      opLoop cfg env case_id dd st total ops = (st ++ added, .ok (total + added.length)) := by
  intro ops
  induction ops with
  | nil =>
    intro st total
    exact ⟨[], by simp [opLoop]⟩
  | cons op rest ih =>
    intro st total
    by_cases ht : (extractOpinionText op).isEmpty
    · obtain ⟨added, ha⟩ := ih st total
      refine ⟨added, ?_⟩
      rw [opLoop]
      simp only [ht, if_true]
      exact ha
    · by_cases hc : (env.split (extractOpinionText op)).isEmpty
      · obtain ⟨added, ha⟩ := ih st total
        refine ⟨added, ?_⟩
        rw [opLoop]
        simp only [ht, hc, Bool.false_eq_true, if_false, if_true]
        exact ha
      · have hok := embedBatch_isOk env hembed (env.split (extractOpinionText op))
        cases hemb : embedBatch env (env.split (extractOpinionText op)) with
        | error e =>
          rw [hemb] at hok
          simp [Except.isOk, Except.toBool] at hok
        | ok vectors =>
          set docs := (env.split (extractOpinionText op)).mapIdx (fun i c =>
              buildChunkDoc cfg.base env.sha1 case_id
                (normalizeSection (jsOrOpt op.type op.opinion_type))
                (authorOf op) dd op.id i c vectors[i]?) with hdocsdef
          obtain ⟨a1, ha1, hcnt⟩ := insertOpinionChunks_growth st docs
          obtain ⟨a2, ha2⟩ := ih (st ++ a1) (total + a1.length)
          refine ⟨a1 ++ a2, ?_⟩
          rw [opLoop]
          simp only [ht, hc, Bool.false_eq_true, if_false, hemb]
          rw [← hdocsdef, ha1, hcnt, ha2]
          simp [List.append_assoc, Nat.add_assoc]

/-- A sub-document with one short plain text. -/
def op7 : Op :=
  { id := 5, type := none, opinion_type := none, author_str := none
  , author := none, plain_text := some (strCodes "x"), html_with_citations := none
  , html := none }

/-- The witness environment whose opinions fetch returns `op7`. -/
def envC7 : Env := { envA with fetchOpinions := fun _ => .ok [op7] }

/-- A record with one sub-document and no decision date. -/
def cluster7 : Cluster :=
  { id := 1, case_name := none, case_name_full := none
  , date_filed := none, docket := none, docket_number := none, citations := none }

/-- The one chunk document that processing `cluster7` produces. -/
def preChunk : Chunk :=
  buildChunkDoc cfgA.base (fun s => s) (caseIdOf 1) .other none none 5 0 (strCodes "x") (some [])

/-- A store already holding that chunk (the state a crashed earlier run
leaves behind: chunks inserted, `indexed` still unset). -/
def store7 : Store := { cases := [], opinions := [preChunk], control := [] }

/-- C7 counterexample: re-processing a record whose one produced chunk
already sits in storage completes with opinions_count = 0 — the count
of chunks INSERTED this run — although one chunk was produced for the
record (and remains stored).  This falsifies opinions_count = count of
chunks produced. -/
theorem c7_prior_chunks_excluded_from_count :
    ((processCluster cfgA envC7 store7 cluster7).1.cases.find?
        (fun c => c.case_id == caseIdOf cluster7.id)).map
      (fun c => (c.indexed, c.opinions_count))
      = some (some true, some 0)
    ∧ (clusterOpinionDocs cfgA envC7 cluster7 [op7]).length = 1
    ∧ (processCluster cfgA envC7 store7 cluster7).1.opinions = [preChunk] := by
  refine ⟨by decide, by decide, by decide⟩

/-- C7 (amended): when processCluster completes all sub-documents of a
record (opinions fetch succeeds, no embedding call fails, the record is
neither already indexed nor outside the date window), it upserts the
CaseDocument with indexed=true and opinions_count equal to the number
of chunks NEWLY ADDED to chunk storage during that processing — the
dedup layer's accumulated inserted count; when the produced chunks'
dedup keys are pairwise distinct and none of them was already present
in storage, that number equals the count of chunks produced for the
record; and a record with no sub-documents gets opinions_count=0.
Without the freshness provisos the code still sets indexed=true but
counts only what it inserted, as the counterexample shows. -/
theorem c7_indexed_count_on_completion (cfg : Config) (env : Env) (store : Store)
    (cluster : Cluster) (ops : List Op)
    (hfetch : env.fetchOpinions cluster.id = .ok ops)
    (hembed : ∀ xs, (env.embedRaw xs).isOk = true)
    (hnotidx : alreadyIndexed store (caseIdOf cluster.id) = false)
    (hdate : recordDateSkips cfg (truthyStr cluster.date_filed) = false) :
    (processCluster cfg env store cluster).2 = .ok
    ∧ (∃ added : List Chunk,
        (processCluster cfg env store cluster).1.opinions = store.opinions ++ added
        ∧ ((processCluster cfg env store cluster).1.cases.find?
              (fun c => c.case_id == caseIdOf cluster.id)).map
            (fun c => (c.indexed, c.opinions_count))
          = some (some true, some added.length))
    ∧ ((∀ x ∈ clusterOpinionDocs cfg env cluster ops, probeExists store.opinions x = false) →
        List.Pairwise (fun a b => chunkKeyEq a b = false)
          (clusterOpinionDocs cfg env cluster ops) →
        (processCluster cfg env store cluster).1.opinions
            = store.opinions ++ clusterOpinionDocs cfg env cluster ops
        ∧ ((processCluster cfg env store cluster).1.cases.find?
              (fun c => c.case_id == caseIdOf cluster.id)).map
            (fun c => (c.indexed, c.opinions_count))
          = some (some true, some (clusterOpinionDocs cfg env cluster ops).length))
    ∧ (ops = [] →
        ((processCluster cfg env store cluster).1.cases.find?
            (fun c => c.case_id == caseIdOf cluster.id)).map
          (fun c => (c.indexed, c.opinions_count))
        = some (some true, some 0)) := by
  have hfindU := find?_upsertCase store.cases cfg cluster
  by_cases hops : ops.isEmpty
  · have hopsnil : ops = [] := List.isEmpty_iff.mp hops
    subst hopsnil
    have hP : clusterOpinionDocs cfg env cluster [] = [] := by
      simp [clusterOpinionDocs]
    have hpc : processCluster cfg env store cluster =
        ({ store with
            cases := markIndexed (upsertCase store.cases (clusterCaseDoc cfg cluster))
              (caseIdOf cluster.id) 0 }, .ok) := by
      simp only [processCluster, hnotidx, Bool.false_eq_true, if_false, hdate, hfetch,
        List.isEmpty_nil, if_true]
    have hcount :
        ((processCluster cfg env store cluster).1.cases.find?
            (fun c => c.case_id == caseIdOf cluster.id)).map
          (fun c => (c.indexed, c.opinions_count))
        = some (some true, some 0) := by
      rw [hpc]
      exact find?_markIndexed _ _ 0 _ hfindU
    refine ⟨by rw [hpc], ⟨[], by rw [hpc]; simp, by simpa using hcount⟩, ?_, fun _ => hcount⟩
    intro _ _
    rw [hP]
    exact ⟨by rw [hpc]; simp, by simpa using hcount⟩
  · have hopsne : ops.isEmpty = false := Bool.eq_false_iff.mpr hops
    obtain ⟨added, hadded⟩ := opLoop_growth cfg env (caseIdOf cluster.id)
      (truthyStr cluster.date_filed) hembed ops store.opinions 0
    have hpc : processCluster cfg env store cluster =
        ({ store with
            cases := markIndexed (upsertCase store.cases (clusterCaseDoc cfg cluster))
              (caseIdOf cluster.id) (0 + added.length)
          , opinions := store.opinions ++ added }, .ok) := by
      simp only [processCluster, hnotidx, Bool.false_eq_true, if_false, hdate, hfetch, hopsne]
      rw [hadded]
    refine ⟨by rw [hpc], ⟨added, by rw [hpc], ?_⟩, ?_, ?_⟩
    · rw [hpc]
      rw [find?_markIndexed _ _ _ _ hfindU]
      simp
    · intro hfresh hdist
      have hloop := opLoop_ok cfg env (caseIdOf cluster.id) (truthyStr cluster.date_filed) hembed
        ops store.opinions 0 hfresh hdist
      have hpc2 : processCluster cfg env store cluster =
          ({ store with
              cases := markIndexed (upsertCase store.cases (clusterCaseDoc cfg cluster))
                (caseIdOf cluster.id) (0 + (clusterOpinionDocs cfg env cluster ops).length)
            , opinions := store.opinions ++ clusterOpinionDocs cfg env cluster ops }, .ok) := by
        simp only [processCluster, hnotidx, Bool.false_eq_true, if_false, hdate, hfetch, hopsne]
        rw [hloop]
        rfl
      refine ⟨by rw [hpc2], ?_⟩
      rw [hpc2]
      rw [find?_markIndexed _ _ _ _ hfindU]
      simp
    · intro h
      rw [h] at hopsne
      simp at hopsne



/-- Witness for C7: a fresh run over the record with one sub-document
ends indexed with the full produced count. -/
theorem c7_indexed_count_on_completion_witness :
    (processCluster cfgA envC7 storeA cluster7).2 = .ok
    ∧ ((processCluster cfgA envC7 storeA cluster7).1.cases.find?
          (fun c => c.case_id == caseIdOf cluster7.id)).map
        (fun c => (c.indexed, c.opinions_count))
      = some (some true, some (clusterOpinionDocs cfgA envC7 cluster7 [op7]).length) := by
  have h := c7_indexed_count_on_completion cfgA envC7 storeA cluster7 [op7] rfl
    (fun xs => rfl) (by decide) rfl
  exact ⟨h.1, (h.2.2.1 (by decide) (by decide)).2⟩


/-! ### Orchestrator ordering: the C5 analysis -/

/-- Every record of a page contributes exactly one attempt event
carrying its id, whatever the filter or processing outcome. -/
theorem evTag_recordStep (cfg : Config) (env : Env) (store : Store) (c : Cluster) :
    evTag (recordStep cfg env store c).2 = some c.id := by
  rw [recordStep]
  by_cases h : pageFilterSkips cfg c
  · simp [h, evTag]
  · simp only [h, Bool.false_eq_true, if_false]
    rcases hpc : processCluster cfg env store c with ⟨s, out⟩
    cases out <;> simp [evTag]

/-- The record loop of one page emits one attempt event per record, in
page order, on top of any accumulated prefix. -/
theorem pageLoop_map (cfg : Config) (env : Env) :
    ∀ (results : List Cluster) (store : Store) (acc : List Event),
    ((results.foldl (fun (acc2 : Store × List Event) c =>
        ((recordStep cfg env acc2.1 c).1, acc2.2 ++ [(recordStep cfg env acc2.1 c).2]))
        (store, acc)).2).map evTag
      = acc.map evTag ++ results.map (fun c => some c.id) := by
  intro results
  induction results with
  | nil =>
    intro store acc
    simp
  | cons c cs ih =>
    intro store acc
    simp only [List.foldl_cons]
    rw [ih]
    simp [evTag_recordStep]

/-- C5: in every iteration of the page loop the effect trace is: one
attempt event per record of the page, in order, followed by exactly one
checkpoint write carrying that page's next cursor — so the checkpoint is
written with the page's next cursor only after every record on the page
has been attempted (processed, skipped or failed-and-logged), and the
trace holds no other checkpoint; moreover a crawl on a non-empty URL
decomposes as that page step followed by exactly a fresh crawl from the
just-checkpointed cursor over the post-page store, which is why a crash
mid-page costs at most that one page's records on a resumed run. -/
theorem c5_checkpoint_after_all_records (cfg : Config) (env : Env) (store : Store) (page : Page) :
    (pageStep cfg env store page).2.map evTag
        = page.results.map (fun c => some c.id) ++ [none]
    ∧ (pageStep cfg env store page).2.getLast?
        = some (Event.checkpoint (firstTruthy page.next []))
    ∧ (∀ e ∈ (pageStep cfg env store page).2.dropLast, ∃ cid o, e = Event.attempt cid o)
    ∧ (∀ (url : JStr) (fuel : Nat) (store2 : Store), url ≠ [] →
        crawl cfg env store2 url (fuel + 1) = pageStepThen cfg env store2 url fuel) := by
  have hmap := pageLoop_map cfg env page.results store []
  simp only [List.map_nil, List.nil_append] at hmap
  refine ⟨?_, ?_, ?_, ?_⟩
  · simp only [pageStep, List.map_append]
    rw [hmap]
    simp [evTag]
  · simp only [pageStep]
    simp [List.getLast?_concat]
  · intro e he
    simp only [pageStep, List.dropLast_concat] at he
    have h2 : evTag e ∈ page.results.map (fun c => some c.id) := by
      rw [← hmap]
      exact List.mem_map_of_mem evTag he
    rcases List.mem_map.mp h2 with ⟨c, hc, htag⟩
    cases e with
    | attempt cid o => exact ⟨cid, o, rfl⟩
    | checkpoint nu => simp [evTag] at htag
  · intro url fuel store2 hne
    have hni : url.isEmpty = false := by
      cases url with
      | nil => exact absurd rfl hne
      | cons a l => rfl
    rw [crawl, pageStepThen]
    simp [hni]

/-- A one-record page with a further cursor. -/
def pageC5 : Page := { results := [clusterC1], next := some (strCodes "next2") }

/-- Witness for C5 on a concrete one-record page. -/
theorem c5_checkpoint_after_all_records_witness :
    (pageStep cfgA envA storeA pageC5).2.map evTag = [some 7, none]
    ∧ (∃ cid o, (Event.attempt 7 RecOutcome.filtered : Event) = Event.attempt cid o)
    ∧ crawl cfgA envA storeA (strCodes "u") 1 = pageStepThen cfgA envA storeA (strCodes "u") 0 := by
  have h := c5_checkpoint_after_all_records cfgA envA storeA pageC5
  refine ⟨?_, h.2.2.1 (Event.attempt 7 RecOutcome.filtered) (by decide),
    h.2.2.2 (strCodes "u") 0 storeA (by decide)⟩
  rw [h.1]
  rfl


end CourtSeed
